import Mathlib

/-!
Verification of the filename-safe persistence layer of
`app/data/repository.py` (class `FileSystemTemplateRepository`) against its
specification.  Python strings are modelled as Lean `String` / `List Char`
(a Python `str` is a sequence of code points, as is the character list
underlying a Lean string).  Library calls of the Python code (Unicode
normalisation, ISO-8601 timestamp formatting, YAML dump/load) are modelled
either as explicit parameters or as small executable functions whose doc
comments state the modelled domain.
-/

namespace AIPB

/-- Python `str.strip()` / regex whitespace class, modelled by
`Char.isWhitespace` (space, tab, carriage return, line feed; the claims only
exercise these). -/
def pyWs (c : Char) : Bool := c.isWhitespace

/-- Modelled from the spec: the replacement character class of step 2 of
`deriveKey` (repository.py line 82).  The regex literal on that line is
syntactically mangled in the provided source (the file does not parse as
Python at that line), so the class is taken from the spec's enumeration:
whitespace plus the characters `< > : " / \ | ? * . , ; ! # % = + ~`. -/
def badChar (c : Char) : Bool :=
  pyWs c ||
    (c = '<' || c = '>' || c = ':' || c = '"' || c = '/' || c = '\\' ||
     c = '|' || c = '?' || c = '*' || c = '.' || c = ',' || c = ';' ||
     c = '!' || c = '#' || c = '%' || c = '=' || c = '+' || c = '~')

/-- Single pass implementing the first `re.sub` of `_sanitize_filename`
(repository.py line 82): the regex class carries a trailing plus, so each
maximal run of class characters is replaced by one underscore.  The flag
records whether the previous character belonged to the class (i.e. whether a
run is already open). -/
def replaceRunsAux (prevBad : Bool) : List Char → List Char
  | [] => []
  | c :: cs =>
    if badChar c then
      (if prevBad then [] else ['_']) ++ replaceRunsAux true cs
    else c :: replaceRunsAux false cs

/-- First `re.sub` of `_sanitize_filename` (repository.py line 82). -/
def replaceRuns (l : List Char) : List Char := replaceRunsAux false l

/-- Python `str.strip(chars)`: remove from both ends every leading and
trailing character satisfying `p` (repository.py lines 84 and 94). -/
def stripBoth (p : Char → Bool) (l : List Char) : List Char :=
  (l.dropWhile p).rdropWhile p

/-- Single pass implementing the second `re.sub` of `_sanitize_filename`
(repository.py line 86): collapse each run of two or more underscores into a
single one.  Replacing every maximal nonempty run of underscores by one
underscore is the same transformation; the flag records whether an underscore
run is already open. -/
def collapseUAux (prevU : Bool) : List Char → List Char
  | [] => []
  | c :: cs =>
    if c = '_' then
      (if prevU then [] else ['_']) ++ collapseUAux true cs
    else c :: collapseUAux false cs

/-- Second `re.sub` of `_sanitize_filename` (repository.py line 86). -/
def collapseU (l : List Char) : List Char := collapseUAux false l

/-- The character test of the strip on repository.py line 84
(`strip` with both an underscore and a dot). -/
def underscoreDot (c : Char) : Bool := c = '_' || c = '.'

/-- The function `_sanitize_filename` of repository.py (lines 76-98),
parametrised by the NFKC normalisation `nfkc` of the `unicodedata` library
call on line 79.  Lowercasing (line 88) is modelled character-wise by
`Char.toLower`; truncation (lines 91-94) is by code points, as in Python. -/
def sanitize_filename (nfkc : String → String) (filename : String) : String :=
  let normalized := nfkc filename
  let s1 := replaceRuns normalized.data
  let s2 := stripBoth underscoreDot s1
  let s3 := collapseU s2
  let s4 := s3.map Char.toLower
  let s5 := if 100 < s4.length then stripBoth (fun c => c = '_') (s4.take 100) else s4
  if s5 = [] then "default_template" else String.mk s5

/-- The function `_title_to_filename` of repository.py (lines 100-102). -/
def title_to_filename (nfkc : String → String) (title : String) : String :=
  sanitize_filename nfkc title ++ ".md"

/-- Reference step 2 following the words of claim C1: replace every single
character of the class by an underscore. -/
def replaceEach (l : List Char) : List Char :=
  l.map (fun c => if badChar c then '_' else c)

/-- Reference key derivation following the words of claim C1: NFKC-normalise;
replace every class character by an underscore; strip leading/trailing
underscore and dot; collapse runs of two or more underscores; lowercase;
truncate to 100 characters stripping trailing underscores after truncation;
substitute the fallback on empty; append the extension. -/
def deriveKeyRef (nfkc : String → String) (title : String) : String :=
  let n := (nfkc title).data
  let s1 := replaceEach n
  let s2 := stripBoth underscoreDot s1
  let s3 := collapseU s2
  let s4 := s3.map Char.toLower
  let s5 := if 100 < s4.length then (s4.take 100).rdropWhile (fun c => c = '_') else s4
  (if s5 = [] then "default_template" else String.mk s5) ++ ".md"

/-- Characters absorbed from either end by the combined replace-then-strip
passes: class characters become underscores, which the strip removes together
with literal underscores. -/
def badU (c : Char) : Bool := badChar c || c = '_'

lemma dot_bad : badChar '.' = true := by decide

lemma underscore_good : badChar '_' = false := by decide

lemma ud_of_not_bad {c : Char} (hb : badChar c = false) (hu : c ≠ '_') :
    underscoreDot c = false := by
  have hd : c ≠ '.' := by
    intro h
    rw [h] at hb
    exact absurd hb (by decide)
  simp [underscoreDot, hu, hd]

lemma replaceEach_cons (c : Char) (cs : List Char) :
    replaceEach (c :: cs) = (if badChar c then '_' else c) :: replaceEach cs := rfl

lemma replaceRunsAux_nil (b : Bool) : replaceRunsAux b [] = [] := rfl

lemma collapseUAux_nil (u : Bool) : collapseUAux u [] = [] := rfl

lemma replaceRunsAux_cons (b : Bool) (c : Char) (cs : List Char) :
    replaceRunsAux b (c :: cs) =
      if badChar c then (if b then [] else ['_']) ++ replaceRunsAux true cs
      else c :: replaceRunsAux false cs := rfl

lemma collapseUAux_cons (u : Bool) (c : Char) (cs : List Char) :
    collapseUAux u (c :: cs) =
      if c = '_' then (if u then [] else ['_']) ++ collapseUAux true cs
      else c :: collapseUAux false cs := rfl

lemma dropWhile_ud_replaceRunsAux (l : List Char) :
    ∀ b, (replaceRunsAux b l).dropWhile underscoreDot =
      replaceRunsAux false (l.dropWhile badU) := by
  induction l with
  | nil => intro b; rfl
  | cons c cs ih =>
    intro b
    by_cases hb : badChar c = true
    · have hbu : badU c = true := by simp [badU, hb]
      rw [replaceRunsAux_cons, if_pos hb, List.dropWhile_cons_of_pos (p := badU) hbu]
      cases b with
      | false =>
        rw [if_neg (by simp), List.singleton_append,
          List.dropWhile_cons_of_pos (p := underscoreDot) (by decide)]
        exact ih true
      | true =>
        rw [if_pos rfl, List.nil_append]
        exact ih true
    · have hb' : badChar c = false := by simpa using hb
      rw [replaceRunsAux_cons, if_neg (by simp [hb'])]
      by_cases hu : c = '_'
      · subst hu
        rw [List.dropWhile_cons_of_pos (p := underscoreDot) (by decide),
          List.dropWhile_cons_of_pos (p := badU) (by decide)]
        exact ih false
      · have hud : underscoreDot c = false := ud_of_not_bad hb' hu
        have hbu : badU c = false := by simp [badU, hb', hu]
        rw [List.dropWhile_cons_of_neg (p := underscoreDot) (by simp [hud]),
          List.dropWhile_cons_of_neg (p := badU) (by simp [hbu]),
          replaceRunsAux_cons, if_neg (by simp [hb'])]

lemma dropWhile_ud_replaceEach (l : List Char) :
    (replaceEach l).dropWhile underscoreDot = replaceEach (l.dropWhile badU) := by
  induction l with
  | nil => rfl
  | cons c cs ih =>
    by_cases hb : badChar c = true
    · have hbu : badU c = true := by simp [badU, hb]
      rw [replaceEach_cons, if_pos hb, List.dropWhile_cons_of_pos (p := underscoreDot) (by decide),
        List.dropWhile_cons_of_pos (p := badU) hbu]
      exact ih
    · have hb' : badChar c = false := by simpa using hb
      rw [replaceEach_cons, if_neg (by simp [hb'])]
      by_cases hu : c = '_'
      · subst hu
        rw [List.dropWhile_cons_of_pos (p := underscoreDot) (by decide),
          List.dropWhile_cons_of_pos (p := badU) (by decide)]
        exact ih
      · have hud : underscoreDot c = false := ud_of_not_bad hb' hu
        have hbu : badU c = false := by simp [badU, hb', hu]
        rw [List.dropWhile_cons_of_neg (p := underscoreDot) (by simp [hud]),
          List.dropWhile_cons_of_neg (p := badU) (by simp [hbu]),
          replaceEach_cons, if_neg (by simp [hb'])]

/-- The run-open flag left behind after processing a list. -/
def endB (b : Bool) : List Char → Bool
  | [] => b
  | c :: cs => endB (badChar c) cs

lemma replaceRunsAux_append (xs : List Char) :
    ∀ ys b, replaceRunsAux b (xs ++ ys) =
      replaceRunsAux b xs ++ replaceRunsAux (endB b xs) ys := by
  induction xs with
  | nil => intro ys b; rfl
  | cons c cs ih =>
    intro ys b
    by_cases hb : badChar c = true
    · simp [replaceRunsAux_cons, hb, endB, ih, List.append_assoc]
    · have hb' : badChar c = false := by simpa using hb
      simp [replaceRunsAux_cons, hb', endB, ih]

lemma rdropWhile_ud_replaceRunsAux (l : List Char) :
    ∀ b, (replaceRunsAux b l).rdropWhile underscoreDot =
      replaceRunsAux b (l.rdropWhile badU) := by
  induction l using List.reverseRecOn with
  | nil => intro b; rfl
  | append_singleton xs x ih =>
    intro b
    rw [replaceRunsAux_append]
    by_cases hb : badChar x = true
    · have hbu : badU x = true := by simp [badU, hb]
      rw [List.rdropWhile_concat_pos _ _ _ hbu]
      cases hEnd : endB b xs with
      | true =>
        rw [show replaceRunsAux true [x] = [] by simp [replaceRunsAux_cons, hb, replaceRunsAux_nil],
          List.append_nil]
        exact ih b
      | false =>
        rw [show replaceRunsAux false [x] = ['_'] by simp [replaceRunsAux_cons, hb, replaceRunsAux_nil],
          List.rdropWhile_concat_pos _ _ _ (show underscoreDot '_' = true by decide)]
        exact ih b
    · have hb' : badChar x = false := by simpa using hb
      have hx : ∀ e, replaceRunsAux e [x] = [x] := by
        intro e
        simp [replaceRunsAux_cons, hb', replaceRunsAux_nil]
      by_cases hu : x = '_'
      · subst hu
        rw [List.rdropWhile_concat_pos _ _ _ (show badU '_' = true by decide), hx,
          List.rdropWhile_concat_pos _ _ _ (show underscoreDot '_' = true by decide)]
        exact ih b
      · have hud : underscoreDot x = false := ud_of_not_bad hb' hu
        have hbu : badU x = false := by simp [badU, hb', hu]
        rw [hx, List.rdropWhile_concat_neg badU xs x (by simp [hbu]),
          List.rdropWhile_concat_neg underscoreDot (replaceRunsAux b xs) x (by simp [hud]),
          replaceRunsAux_append, hx]

lemma rdropWhile_ud_replaceEach (l : List Char) :
    (replaceEach l).rdropWhile underscoreDot = replaceEach (l.rdropWhile badU) := by
  induction l using List.reverseRecOn with
  | nil => rfl
  | append_singleton xs x ih =>
    rw [show replaceEach (xs ++ [x]) =
        replaceEach xs ++ replaceEach [x] from List.map_append _ _ _]
    by_cases hb : badChar x = true
    · have hbu : badU x = true := by simp [badU, hb]
      rw [List.rdropWhile_concat_pos _ _ _ hbu]
      simp only [replaceEach, List.map_cons, List.map_nil, hb, if_true]
      rw [List.rdropWhile_concat_pos _ _ _ (show underscoreDot '_' = true by decide)]
      exact ih
    · have hb' : badChar x = false := by simpa using hb
      by_cases hu : x = '_'
      · subst hu
        rw [List.rdropWhile_concat_pos _ _ _ (show badU '_' = true by decide)]
        simp only [replaceEach, List.map_cons, List.map_nil, underscore_good,
          Bool.false_eq_true, if_false]
        rw [List.rdropWhile_concat_pos _ _ _ (show underscoreDot '_' = true by decide)]
        exact ih
      · have hud : underscoreDot x = false := ud_of_not_bad hb' hu
        have hbu : badU x = false := by simp [badU, hb', hu]
        rw [List.rdropWhile_concat_neg _ _ _ (by simp [hbu]),
          show replaceEach (xs ++ [x]) =
            replaceEach xs ++ replaceEach [x] from List.map_append _ _ _]
        simp only [replaceEach, List.map_cons, List.map_nil, hb', Bool.false_eq_true, if_false]
        rw [List.rdropWhile_concat_neg _ _ _ (by simp [hud])]

lemma collapseUAux_replaceRunsAux (l : List Char) :
    ∀ b u, (b = true → u = true) →
      collapseUAux u (replaceRunsAux b l) = collapseUAux u (replaceEach l) := by
  induction l with
  | nil => intro b u _; rfl
  | cons c cs ih =>
    intro b u hbu
    rw [replaceRunsAux_cons, replaceEach_cons]
    by_cases hb : badChar c = true
    · rw [if_pos hb, if_pos hb]
      cases b with
      | true =>
        have hu : u = true := hbu rfl
        subst hu
        rw [if_pos rfl, List.nil_append,
          show collapseUAux true ('_' :: replaceEach cs) =
            collapseUAux true (replaceEach cs) by rw [collapseUAux_cons]; simp]
        exact ih true true (fun _ => rfl)
      | false =>
        rw [if_neg (by simp), List.singleton_append, collapseUAux_cons, if_pos rfl,
          collapseUAux_cons, if_pos rfl, ih true true (fun _ => rfl)]
    · have hb' : badChar c = false := by simpa using hb
      rw [if_neg (by simp [hb']), if_neg (by simp [hb'])]
      by_cases hu : c = '_'
      · subst hu
        rw [collapseUAux_cons, if_pos rfl, collapseUAux_cons, if_pos rfl,
          ih false true (fun h => by cases h)]
      · rw [collapseUAux_cons, if_neg hu, collapseUAux_cons, if_neg hu,
          ih false false (fun h => by cases h)]

lemma stripBoth_replaceRuns (l : List Char) :
    stripBoth underscoreDot (replaceRuns l) = replaceRunsAux false (stripBoth badU l) := by
  unfold stripBoth replaceRuns
  rw [dropWhile_ud_replaceRunsAux, rdropWhile_ud_replaceRunsAux]

lemma stripBoth_replaceEach (l : List Char) :
    stripBoth underscoreDot (replaceEach l) = replaceEach (stripBoth badU l) := by
  unfold stripBoth
  rw [dropWhile_ud_replaceEach, rdropWhile_ud_replaceEach]

lemma collapse_strip_replace (l : List Char) :
    collapseU (stripBoth underscoreDot (replaceRuns l)) =
      collapseU (stripBoth underscoreDot (replaceEach l)) := by
  rw [stripBoth_replaceRuns, stripBoth_replaceEach]
  exact collapseUAux_replaceRunsAux _ false false (fun h => by cases h)

lemma collapseU_head? (l : List Char) : (collapseU l).head? = l.head? := by
  cases l with
  | nil => rfl
  | cons c cs =>
    show (collapseUAux false (c :: cs)).head? = _
    rw [collapseUAux_cons]
    by_cases hu : c = '_'
    · subst hu
      simp
    · simp [hu]

lemma head?_stripBoth (p : Char → Bool) (l : List Char) (c : Char)
    (h : (stripBoth p l).head? = some c) : p c = false := by
  obtain ⟨t, ht⟩ := List.rdropWhile_prefix p (l.dropWhile p)
  have hsome : (l.dropWhile p).head? = some c := by
    rcases hsb : stripBoth p l with _ | ⟨d, rest⟩
    · rw [hsb] at h
      cases h
    · rw [hsb] at h
      have hd : l.dropWhile p = d :: (rest ++ t) := by
        rw [← ht, show (l.dropWhile p).rdropWhile p = stripBoth p l from rfl, hsb]
        rfl
      rw [hd]
      exact h
  have h2 := List.head?_dropWhile_not p l
  rw [hsome] at h2
  simpa using h2

lemma stripBoth_eq_rdropWhile_of_head (p : Char → Bool) (l : List Char)
    (h : ∀ c, l.head? = some c → p c = false) :
    stripBoth p l = l.rdropWhile p := by
  cases l with
  | nil => rfl
  | cons c cs =>
    have hc := h c rfl
    rw [stripBoth, List.dropWhile_cons_of_neg (p := p) (by simp [hc])]

lemma toLower_ne_underscore {c : Char} (h : c ≠ '_') : Char.toLower c ≠ '_' := by
  intro hl
  by_cases hcond : c.toNat ≥ 65 ∧ c.toNat ≤ 90
  · have hv : (c.toNat + 32).isValidChar := Or.inl (by omega)
    have he : Char.toLower c = Char.ofNat (c.toNat + 32) := by
      unfold Char.toLower
      exact if_pos hcond
    rw [he, Char.ofNat, dif_pos hv] at hl
    have h1 : (Char.ofNatAux (c.toNat + 32) hv).toNat = c.toNat + 32 := rfl
    rw [hl] at h1
    have h2 : ('_').toNat = 95 := rfl
    omega
  · have he : Char.toLower c = c := by
      unfold Char.toLower
      exact if_neg hcond
    rw [he] at hl
    exact h hl

lemma head?_take {l : List Char} {n : Nat} {c : Char}
    (h : (l.take n).head? = some c) : l.head? = some c := by
  cases l with
  | nil => simp at h
  | cons d ds =>
    cases n with
    | zero => simp at h
    | succ m => simpa using h

lemma title_to_filename_eq_deriveKeyRef (nfkc : String → String) (title : String) :
    title_to_filename nfkc title = deriveKeyRef nfkc title := by
  simp only [title_to_filename, sanitize_filename, deriveKeyRef]
  rw [collapse_strip_replace (nfkc title).data]
  set s4 := (collapseU (stripBoth underscoreDot (replaceEach (nfkc title).data))).map
    Char.toLower with hs4
  by_cases hlen : 100 < s4.length
  · rw [if_pos hlen, if_pos hlen,
      stripBoth_eq_rdropWhile_of_head (fun c => c = '_') (s4.take 100)]
    intro c hc
    have hc' := head?_take hc
    rw [hs4, List.head?_map, collapseU_head?] at hc'
    obtain ⟨c', hc1, hc2⟩ := Option.map_eq_some'.mp hc'
    have hud := head?_stripBoth underscoreDot _ c' hc1
    have hne : c' ≠ '_' := by
      intro he
      rw [he] at hud
      simp [underscoreDot] at hud
    have hcu : c ≠ '_' := hc2 ▸ toLower_ne_underscore hne
    simp [hcu]
  · rw [if_neg hlen, if_neg hlen]

/-- C1: the key derivation of the source (the composition of
`_sanitize_filename` and `_title_to_filename`, repository.py lines 76-102)
agrees with the reference definition spelled out in the claim, for every
normalisation function and every title; as a Lean function of the title it is
deterministic and pure by construction.  The three fallback vectors hold for
every normalisation that fixes the corresponding strings (NFKC fixes every
ASCII string, in particular these three). -/
theorem C1_deriveKey_matches_reference :
    (∀ nfkc title, title_to_filename nfkc title = deriveKeyRef nfkc title) ∧
    (∀ nfkc : String → String,
      nfkc "" = "" → nfkc "..." = "..." → nfkc "   " = "   " →
      title_to_filename nfkc "" = "default_template.md" ∧
      title_to_filename nfkc "..." = "default_template.md" ∧
      title_to_filename nfkc "   " = "default_template.md") := by
  refine ⟨title_to_filename_eq_deriveKeyRef, fun nfkc h1 h2 h3 => ⟨?_, ?_, ?_⟩⟩
  · simp only [title_to_filename, sanitize_filename]
    rw [h1]
    decide
  · simp only [title_to_filename, sanitize_filename]
    rw [h2]
    decide
  · simp only [title_to_filename, sanitize_filename]
    rw [h3]
    decide

/-- Witness for C1: the hypotheses of the second conjunct are satisfied by
the identity normalisation, and the fallback key comes out on the
three-space title. -/
theorem C1_deriveKey_matches_reference_witness :
    title_to_filename id "   " = "default_template.md" :=
  (C1_deriveKey_matches_reference.2 id rfl rfl rfl).2.2

/-! ### Timestamps

The Python `datetime` library is modelled by an abstract instant type `DT`
together with the four operations the source calls.  Theorems that depend on
library behaviour (for instance that `fromisoformat` inverts `isoformat` on
aware datetimes, which the Python documentation guarantees) take that
behaviour as an explicit hypothesis on the record involved. -/

/-- The `datetime` operations used by repository.py: `isoformat` (lines
221-222), `fromisoformat` (lines 159-160, `none` models `ValueError`),
the `tzinfo is None` test and `replace(tzinfo=timezone.utc)` (lines
162-165). -/
structure TimeKit (DT : Type) where
  iso : DT → String
  fromIso : String → Option DT
  isAware : DT → Bool
  forceUTC : DT → DT

/-- A concrete instantiation of the timestamp kit for witnesses and
counterexamples: the instant `n` is rendered in unary as a `t` followed by
`n` copies of `x` (chosen so that every computation is structural and
evaluates inside the kernel). -/
def natKit : TimeKit Nat where
  iso n := String.mk ('t' :: List.replicate n 'x')
  fromIso s :=
    match s.data with
    | 't' :: rest => if rest.all (fun c => c = 'x') then some rest.length else none
    | _ => none
  isAware _ := true
  forceUTC d := d

/-! ### The YAML layer

`yaml.safe_load` / `yaml.dump` are third-party library calls; they are
modelled by small executable functions that are accurate on the restricted
domain the claims exercise: a flat mapping whose lines are `key: value` with
plain or single-quoted scalar values and keys free of colons, plus the
malformed shapes used to exercise the error paths.  Nested structures,
block scalars, flow collections, line folding and `key:` entries with empty
values are outside the modelled domain. -/

/-- A scalar as returned by `yaml.safe_load` in the modelled domain: a plain
scalar consisting only of digits resolves to a Python int, everything else
the claims exercise resolves to a string. -/
inductive YVal
  | str (s : String)
  | int (n : Nat)
deriving DecidableEq

/-- Python truthiness of a `metadata.get(...)` result: `None`, the empty
string and the int 0 are falsy (repository.py line 151). -/
def truthy : Option YVal → Bool
  | none => false
  | some (.str s) => s ≠ ""
  | some (.int n) => n ≠ 0

/-- Result of `yaml.safe_load`: an exception, a mapping, or a non-mapping
document. -/
inductive YamlLoad
  | err
  | dict (kvs : List (String × YVal))
  | nonDict
deriving DecidableEq

/-- Split a line at the first colon-space, as the block-mapping grammar
does for the modelled single-line `key: value` entries. -/
def splitColonSp : List Char → Option (List Char × List Char)
  | [] => none
  | c :: cs =>
    if c = ':' ∧ cs.head? = some ' ' then some ([], cs.tail)
    else
      match splitColonSp cs with
      | none => none
      | some (k, v) => some (c :: k, v)

/-- Undo the single-quote doubling of a single-quoted YAML scalar. -/
def unescQ : List Char → List Char
  | [] => []
  | [c] => [c]
  | c :: d :: cs =>
    if c = '\'' ∧ d = '\'' then '\'' :: unescQ cs
    else c :: unescQ (d :: cs)

/-- Parse one scalar value of a `key: value` line: a single-quoted scalar
(with doubled inner quotes) or a plain scalar, where an all-digit plain
scalar resolves to an int, as PyYAML's implicit resolver does. -/
def parseVal (v : List Char) : Option YVal :=
  match v with
  | [] => none
  | c :: cs =>
    if c = '\'' then
      if cs ≠ [] ∧ cs.getLast? = some '\'' then
        some (.str (String.mk (unescQ cs.dropLast)))
      else none
    else if (c :: cs).all Char.isDigit then
      some (.int ((c :: cs).foldl (fun n d => n * 10 + (d.toNat - 48)) 0))
    else some (.str (String.mk (c :: cs)))

/-- Parse one `key: value` line. -/
def parseKV (l : List Char) : Option (String × YVal) :=
  match splitColonSp l with
  | none => none
  | some (k, v) =>
    match parseVal v with
    | none => none
    | some yv => some (String.mk k, yv)

/-- Split a character list at every newline. -/
def splitNL : List Char → List (List Char)
  | [] => [[]]
  | c :: cs =>
    if c = '\n' then [] :: splitNL cs
    else
      match splitNL cs with
      | [] => [[c]]
      | l :: ls => (c :: l) :: ls

/-- Modelled `yaml.safe_load` on a stripped front-matter block: a block all
of whose lines are well-formed `key: value` entries is a mapping; a block
with no colon-space at all is a plain (non-mapping) scalar; anything mixed
is a parse error.  Duplicate keys resolve to the last occurrence, as in
PyYAML. -/
def yamlLoad (s : String) : YamlLoad :=
  let lines := splitNL s.data
  if lines.all (fun l => (parseKV l).isSome) then .dict (lines.filterMap parseKV)
  else if lines.all (fun l => (splitColonSp l).isNone) then .nonDict
  else .err

/-- `metadata.get(k)` on the loaded mapping (last duplicate wins). -/
def ymGet (kvs : List (String × YVal)) (k : String) : Option YVal :=
  match kvs.reverse.find? (fun kv => kv.1 = k) with
  | some kv => some kv.2
  | none => none

/-- Characters on which PyYAML surely emits a plain scalar in our
conservative model. -/
def plainChar (c : Char) : Bool :=
  c.isAlpha || c.isDigit || c = ' ' || c = '_' || c = '-'

/-- Words that resolve to booleans or null in YAML 1.1 and must therefore be
quoted (checked case-insensitively, conservatively). -/
def yamlWords : List String :=
  ["yes", "no", "true", "false", "on", "off", "null", "none", "y", "n"]

/-- Conservative model of plain-style eligibility in PyYAML's emitter: the
value starts with a letter, uses only letters, digits, spaces, underscores
and hyphens, does not end in a space, and is not a boolean/null word.
Values outside this set are emitted single-quoted; that choice differs from
PyYAML's in style only and never in the value recovered by the loader. -/
def isPlainSafe (v : String) : Bool :=
  match v.data with
  | [] => false
  | c :: _ =>
    c.isAlpha && v.data.all plainChar && v.data.getLast? ≠ some ' '
      && !(yamlWords.contains (String.mk (v.data.map Char.toLower)))

/-- Double every single quote, for the single-quoted style. -/
def escQ : List Char → List Char
  | [] => []
  | c :: cs => if c = '\'' then '\'' :: '\'' :: escQ cs else c :: escQ cs

/-- Emit one scalar value: plain when eligible, single-quoted otherwise. -/
def renderVal (v : String) : String :=
  if isPlainSafe v then v else String.mk ('\'' :: (escQ v.data ++ ['\'']))

/-- One `key: value` line of the dump (as characters). -/
def dumpLineCL (k v : String) : List Char := k.data ++ ':' :: ' ' :: (renderVal v).data

/-- Join lines with newlines (no trailing newline). -/
def joinNL : List (List Char) → List Char
  | [] => []
  | [l] => l
  | l :: ls => l ++ '\n' :: joinNL ls

/-- Modelled `yaml.dump(metadata, sort_keys=False, allow_unicode=True)`
(repository.py line 225) for the five-field string metadata mapping: one
`key: value` line per entry in insertion order, each line terminated by a
newline. -/
def yamlDump (kvs : List (String × String)) : String :=
  String.mk (joinNL (kvs.map (fun kv => dumpLineCL kv.1 kv.2)) ++ ['\n'])

/-! ### Records, errors, serialisation and parsing -/

/-- The `Template` model of `app/schemas/models.py` (lines 6-30): the four
`TemplateBase` fields plus the two timestamps.  `username` is the owner
field of the spec. -/
structure Template (DT : Type) where
  title : String
  content : String
  description : String
  username : String
  created_at : DT
  updated_at : DT
deriving DecidableEq

/-- The `TemplateCreate` model (models.py lines 13-15); `description`
defaults to the empty string and `username` to `anonymous` at the pydantic
layer. -/
structure TemplateCreate where
  title : String
  content : String
  description : String
  username : String
deriving DecidableEq

/-- The exceptions of `app/core/services.py` (lines 11-25) and
`app/data/repository.py` (lines 20-26) that the persistence operations can
surface. -/
inductive RepoError
  | notFound
  | alreadyExists
  | validationErr
  | ioErr
deriving DecidableEq

deriving instance DecidableEq for Except

/-- Python `str.strip()` with no arguments: remove whitespace from both
ends. -/
def pyStrip (l : List Char) : List Char := stripBoth pyWs l

/-- Python `Path(filename).stem`: the final component without its last
suffix; a lone leading dot is not a suffix. -/
def pyStem (name : List Char) : List Char :=
  let r := name.reverse.takeWhile (fun c => c ≠ '.')
  if r.length < name.length ∧ name.length - r.length - 1 ≠ 0 then
    name.take (name.length - r.length - 1)
  else name

/-- Python `str.title()`: uppercase every letter that follows a non-letter,
lowercase every other letter (modelled for ASCII letters). -/
def pyTitleAux (prevAlpha : Bool) : List Char → List Char
  | [] => []
  | c :: cs =>
    (if c.isAlpha then (if prevAlpha then c.toLower else c.toUpper) else c)
      :: pyTitleAux c.isAlpha cs

/-- The function `_filename_to_title` of repository.py (lines 104-109):
strip the extension, turn underscores into spaces, title-case. -/
def filename_to_title (filename : String) : String :=
  String.mk (pyTitleAux false
    ((pyStem filename.data).map (fun c => if c = '_' then ' ' else c)))

/-- The serialized file content produced by `_write_template_file`
(repository.py lines 214-235): a YAML front-matter block between `---`
delimiters followed by a blank line and the raw content.  The f-string
literal on lines 230-233 is mangled in the provided source (a raw newline
inside a single-quoted f-string); the evident format, also described by the
spec, is used: `---\n` + dump + `---\n\n` + content. -/
def writeTemplateContent {DT : Type} (K : TimeKit DT) (t : Template DT) : String :=
  "---\n" ++
    yamlDump [("title", t.title), ("description", t.description),
      ("username", t.username), ("created_at", K.iso t.created_at),
      ("updated_at", K.iso t.updated_at)] ++
    "---\n\n" ++ t.content

/-- First-occurrence split on the literal separator `---`. -/
def splitDash3 : List Char → Option (List Char × List Char)
  | [] => none
  | c :: cs =>
    if c = '-' ∧ cs.take 2 = ['-', '-'] then some ([], cs.drop 2)
    else
      match splitDash3 cs with
      | none => none
      | some (p1, r) => some (c :: p1, r)

/-- Python `content.split('---', 2)` (repository.py line 122). -/
def pySplitDash2 (s : List Char) : List (List Char) :=
  match splitDash3 s with
  | none => [s]
  | some (p1, r1) =>
    match splitDash3 r1 with
    | none => [p1, r1]
    | some (p2, r2) => [p1, p2, r2]

/-- The front-matter extraction of `_read_template_file` (repository.py
lines 117-142): the resulting metadata mapping and markdown content. -/
def extractParts (content : String) : List (String × YVal) × String :=
  if ['-', '-', '-'].isPrefixOf content.data then
    match pySplitDash2 content.data with
    | [_, p1, p2] =>
      let fm := pyStrip p1
      if fm = [] then ([], String.mk (pyStrip p2))
      else
        match yamlLoad (String.mk fm) with
        | .dict kvs => (kvs, String.mk (pyStrip p2))
        | .nonDict => ([], content)
        | .err => ([], content)
    | _ => ([], content)
  else ([], content)

/-- The record-construction step of `_read_template_file` (repository.py
lines 111-190) as a pure function of the file name, file modification time
(an aware UTC instant, line 154) and file content.  Faithfully modelled
details: a falsy (`None`, empty or int 0) `created_at`/`updated_at` falls
back to the mtime for both fields (line 151); a string value failing
`fromisoformat` also falls back for both (`except ValueError`, line 166),
with `created_at` parsed first; a truthy non-string scalar reaches
`fromisoformat` and raises `TypeError`, which the `except ValueError` does
not catch, so the outer handler (line 188) turns it into `TemplateIOError`;
a non-string scalar in `title`, `description` or `username` fails pydantic
validation at construction (line 173) and likewise surfaces as
`TemplateIOError`. -/
def readTemplateContent {DT : Type} (K : TimeKit DT) (fileName : String)
    (mtime : DT) (content : String) : Except RepoError (Template DT) :=
  let md := (extractParts content).1
  let mdContent := (extractParts content).2
  let cv := ymGet md "created_at"
  let uv := ymGet md "updated_at"
  let stamps : Except RepoError (DT × DT) :=
    if ¬ truthy cv ∨ ¬ truthy uv then .ok (mtime, mtime)
    else
      match cv with
      | some (.str cs) =>
        match K.fromIso cs with
        | none => .ok (mtime, mtime)
        | some cd =>
          match uv with
          | some (.str us) =>
            match K.fromIso us with
            | none => .ok (mtime, mtime)
            | some ud =>
              .ok (if K.isAware cd then cd else K.forceUTC cd,
                   if K.isAware ud then ud else K.forceUTC ud)
          | _ => .error .ioErr
      | _ => .error .ioErr
  match stamps with
  | .error e => .error e
  | .ok (cd, ud) =>
    let titleF : Except RepoError String :=
      match ymGet md "title" with
      | none => .ok (filename_to_title fileName)
      | some (.str s) => .ok s
      | some (.int _) => .error .ioErr
    let descF : Except RepoError String :=
      match ymGet md "description" with
      | none => .ok ""
      | some (.str s) => .ok s
      | some (.int _) => .error .ioErr
    let userF : Except RepoError String :=
      match ymGet md "username" with
      | none => .ok "unknown"
      | some (.str s) => .ok s
      | some (.int _) => .error .ioErr
    match titleF, descF, userF with
    | .ok t, .ok d, .ok u =>
      .ok { title := t, content := mdContent, description := d, username := u,
            created_at := cd, updated_at := ud }
    | .error e, _, _ => .error e
    | _, .error e, _ => .error e
    | _, _, .error e => .error e

/-! ### The directory state and the store operations

The template directory is a finite map from file name to file content and
modification time.  Clock readings (`datetime.now(timezone.utc)`), the mtime
the OS assigns to a written file, and I/O failure points are explicit
parameters, which is how the effects of the `async` code are made pure. -/

/-- A file: its text content and its modification time (an aware UTC
instant). -/
structure FSFile (DT : Type) where
  content : String
  mtime : DT
deriving DecidableEq

/-- The template directory, keyed by file name. -/
abbrev FS (DT : Type) := List (String × FSFile DT)

def fsGet {DT : Type} (fs : FS DT) (name : String) : Option (FSFile DT) :=
  match fs.find? (fun e => e.1 = name) with
  | some e => some e.2
  | none => none

def fsErase {DT : Type} (fs : FS DT) (name : String) : FS DT :=
  fs.filter (fun e => ¬ e.1 = name)

def fsSet {DT : Type} (fs : FS DT) (name : String) (f : FSFile DT) : FS DT :=
  (name, f) :: fsErase fs name

/-- The temporary path of `_safe_write` (repository.py line 194):
`with_suffix` replaces the final `.md` suffix of the target by `.md.tmp`,
which for the `.md`-named files of this store appends `.tmp`. -/
def tmpName (name : String) : String := name ++ ".tmp"

/-- Outcome oracle for one `_safe_write` call (repository.py lines 192-212):
either the write phase succeeds, or it raises `IOError` after writing only a
prefix `part` of the content to the temporary file, after which the
best-effort `os.remove` of the temporary file itself succeeds or fails (a
failure there is caught and only logged). -/
inductive WriteOutcome
  | ok
  | failed (part : String) (cleanupOk : Bool)
deriving DecidableEq

/-- The sequence of directory states passed through by one `_safe_write`
call: the initial state; the state with the temporary file written (fully on
success, partially on failure); and the state after the atomic `os.replace`
of the temporary onto the target (success) or after the cleanup attempt
(failure). -/
def safeWriteStates {DT : Type} (fs : FS DT) (name : String) (content : String)
    (newMtime : DT) : WriteOutcome → List (FS DT)
  | .ok =>
    [fs,
     fsSet fs (tmpName name) ⟨content, newMtime⟩,
     fsSet (fsErase (fsSet fs (tmpName name) ⟨content, newMtime⟩) (tmpName name))
       name ⟨content, newMtime⟩]
  | .failed part cleanupOk =>
    [fs,
     fsSet fs (tmpName name) ⟨part, newMtime⟩,
     if cleanupOk then fsErase (fsSet fs (tmpName name) ⟨part, newMtime⟩) (tmpName name)
     else fsSet fs (tmpName name) ⟨part, newMtime⟩]

/-- `_safe_write` (repository.py lines 192-212): result and final directory
state. -/
def safeWrite {DT : Type} (fs : FS DT) (name : String) (content : String)
    (newMtime : DT) (o : WriteOutcome) : Except RepoError Unit × FS DT :=
  match o with
  | .ok => (.ok (), (safeWriteStates fs name content newMtime .ok).getLastD fs)
  | .failed part cOk =>
    (.error .ioErr, (safeWriteStates fs name content newMtime (.failed part cOk)).getLastD fs)

/-- `create` (repository.py lines 239-264): empty-title validation, the
existence check on the derived key, timestamping with the current clock
reading `now`, serialisation and the atomic write. -/
def create {DT : Type} (K : TimeKit DT) (nfkc : String → String) (fs : FS DT)
    (data : TemplateCreate) (now newMtime : DT) (wo : WriteOutcome) :
    Except RepoError (Template DT) × FS DT :=
  if data.title = "" then (.error .validationErr, fs)
  else
    let filename := title_to_filename nfkc data.title
    if (fsGet fs filename).isSome then (.error .alreadyExists, fs)
    else
      let t : Template DT := ⟨data.title, data.content, data.description,
        data.username, now, now⟩
      match safeWrite fs filename (writeTemplateContent K t) newMtime wo with
      | (.ok _, fs') => (.ok t, fs')
      | (.error e, fs') => (.error e, fs')

/-- `get` (repository.py lines 266-274): empty-title validation, then read
and parse the file at the derived key (`FileNotFoundError` becomes
`TemplateNotFoundError` inside `_read_template_file`). -/
def get {DT : Type} (K : TimeKit DT) (nfkc : String → String) (fs : FS DT)
    (title : String) : Except RepoError (Template DT) :=
  if title = "" then .error .validationErr
  else
    let filename := title_to_filename nfkc title
    match fsGet fs filename with
    | none => .error .notFound
    | some f => readTemplateContent K filename f.mtime f.content

/-- Pydantic explicit-set tracking for one optional field of
`TemplateUpdate` (models.py lines 17-21): absent from the request, explicitly
supplied as None, or supplied as a string.  `model_dump(exclude_unset=True)`
(repository.py line 291) keeps `null` and `val` fields and drops `unset`
ones. -/
inductive UpdField
  | unset
  | null
  | val (s : String)
deriving DecidableEq

/-- The `TemplateUpdate` model together with which fields were explicitly
set. -/
structure TemplateUpdate where
  content : UpdField
  description : UpdField
  username : UpdField
deriving DecidableEq

/-- `update` (repository.py lines 276-306).  `model_copy(update=...)`
applies exactly the explicitly-set fields; an explicitly-null `username` is
applied by the copy on line 292 and then immediately reset to the existing
username by lines 296-298, so its net effect is that of an absent field,
which is how it is written here.  An explicitly-null `content` or
`description` would leave the copied record with a None in a string-typed
field, which is outside this model's state space; the modelled domain
excludes those two inputs (no theorem below constrains them) and the merge
keeps the old value there. -/
def update {DT : Type} (K : TimeKit DT) (nfkc : String → String) (fs : FS DT)
    (title : String) (u : TemplateUpdate) (now newMtime : DT) (wo : WriteOutcome) :
    Except RepoError (Template DT) × FS DT :=
  if title = "" then (.error .validationErr, fs)
  else
    let filename := title_to_filename nfkc title
    match fsGet fs filename with
    | none => (.error .notFound, fs)
    | some f =>
      match readTemplateContent K filename f.mtime f.content with
      | .error e => (.error e, fs)
      | .ok existing =>
        let merged : Template DT :=
          { title := existing.title
            content := match u.content with | .val s => s | _ => existing.content
            description := match u.description with | .val s => s | _ => existing.description
            username := match u.username with | .val s => s | _ => existing.username
            created_at := existing.created_at
            updated_at := now }
        match safeWrite fs filename (writeTemplateContent K merged) newMtime wo with
        | (.ok _, fs') => (.ok merged, fs')
        | (.error e, fs') => (.error e, fs')

/-- `delete` (repository.py lines 308-324): empty-title validation, then
`os.remove`, whose `FileNotFoundError` becomes `NotFound` and whose other
`OSError` (modelled by the `osFault` oracle) becomes `TemplateIOError`. -/
def delete {DT : Type} (nfkc : String → String) (fs : FS DT) (title : String)
    (osFault : Bool) : Except RepoError Bool × FS DT :=
  if title = "" then (.error .validationErr, fs)
  else
    let filename := title_to_filename nfkc title
    if osFault then (.error .ioErr, fs)
    else
      match fsGet fs filename with
      | none => (.error .notFound, fs)
      | some _ => (.ok true, fsErase fs filename)

/-- Stable insertion step for the descending `updated_at` sort. -/
def insertByUpdatedDesc {DT : Type} [LinearOrder DT] (x : Template DT) :
    List (Template DT) → List (Template DT)
  | [] => [x]
  | y :: ys =>
    if y.updated_at ≤ x.updated_at then x :: y :: ys
    else y :: insertByUpdatedDesc x ys

/-- Stable sort by `updated_at` descending.  Python's stable
`sort(key=lambda t: t.updated_at, reverse=True)` (repository.py line 358)
keeps records with equal timestamps in their pre-sort order, which this
insertion sort reproduces. -/
def sortByUpdatedDesc {DT : Type} [LinearOrder DT] :
    List (Template DT) → List (Template DT)
  | [] => []
  | x :: xs => insertByUpdatedDesc x (sortByUpdatedDesc xs)

/-- `list` (repository.py lines 326-373): glob `*.md` (temporary `.tmp`
files never match), parse every entry keeping the order of the directory
listing, drop entries whose read or parse raised (gather with
`return_exceptions=True`), filter by `username` when that argument is truthy
(line 352: `if username:` — `None` and the empty string skip the filter),
sort by `updated_at` descending, and slice `[offset : offset + limit]`. -/
def listOp {DT : Type} [LinearOrder DT] (K : TimeKit DT) (fs : FS DT)
    (limit offset : Nat) (username : Option String) : List (Template DT) :=
  let files := fs.filter (fun e => [ '.', 'm', 'd'].isSuffixOf e.1.data)
  let valid := files.filterMap (fun e =>
    match readTemplateContent K e.1 e.2.mtime e.2.content with
    | .ok t => some t
    | .error _ => none)
  let filtered :=
    match username with
    | some u => if u = "" then valid else valid.filter (fun t => t.username = u)
    | none => valid
  ((sortByUpdatedDesc filtered).drop offset).take limit

/-! ### Support lemmas: the delimiter never occurs inside a well-behaved
front matter -/

/-- Scanner for the substring `---`: `k` is the length of the dash run
entering the list; the result is false exactly when some run reaches
three. -/
def dashOk : Nat → List Char → Bool
  | _, [] => true
  | k, c :: cs =>
    if c = '-' then (if 2 ≤ k then false else dashOk (k + 1) cs)
    else dashOk 0 cs

/-- Length of the trailing dash run, continuing an incoming run of `k`. -/
def endRun : Nat → List Char → Nat
  | k, [] => k
  | k, c :: cs => endRun (if c = '-' then k + 1 else 0) cs

lemma dashOk_append (a : List Char) :
    ∀ b k, dashOk k (a ++ b) = (dashOk k a && dashOk (endRun k a) b) := by
  induction a with
  | nil =>
    intro b k
    simp [dashOk, endRun]
  | cons c cs ih =>
    intro b k
    by_cases hc : c = '-'
    · subst hc
      by_cases hk : 2 ≤ k
      · simp [dashOk, endRun, hk]
      · simp [dashOk, endRun, hk, ih]
    · simp [dashOk, endRun, hc, ih]

lemma endRun_append (a : List Char) :
    ∀ b k, endRun k (a ++ b) = endRun (endRun k a) b := by
  induction a with
  | nil =>
    intro b k
    simp [endRun]
  | cons c cs ih =>
    intro b k
    simp [endRun, ih]

lemma dashOk_mono (l : List Char) :
    ∀ j k, j ≤ k → dashOk k l = true → dashOk j l = true := by
  induction l with
  | nil =>
    intro j k _ _
    rfl
  | cons c cs ih =>
    intro j k hjk h
    by_cases hc : c = '-'
    · subst hc
      rw [show dashOk k ('-' :: cs) =
          if 2 ≤ k then false else dashOk (k + 1) cs from rfl] at h
      by_cases hk : 2 ≤ k
      · rw [if_pos hk] at h
        cases h
      · rw [if_neg hk] at h
        have hj : ¬ 2 ≤ j := fun h2 => hk (le_trans h2 hjk)
        rw [show dashOk j ('-' :: cs) =
            if 2 ≤ j then false else dashOk (j + 1) cs from rfl, if_neg hj]
        exact ih (j + 1) (k + 1) (Nat.succ_le_succ hjk) h
    · rw [show dashOk k (c :: cs) = if c = '-' then _ else dashOk 0 cs from rfl,
        if_neg hc] at h
      rw [show dashOk j (c :: cs) = if c = '-' then _ else dashOk 0 cs from rfl,
        if_neg hc]
      exact h

lemma splitDash3_none_of_dashOk (l : List Char) (h : dashOk 0 l = true) :
    splitDash3 l = none := by
  induction l with
  | nil => rfl
  | cons c cs ih =>
    have hrec : dashOk 0 cs = true := by
      by_cases hc : c = '-'
      · subst hc
        rw [show dashOk 0 ('-' :: cs) =
            if 2 ≤ 0 then false else dashOk 1 cs from rfl, if_neg (by omega)] at h
        exact dashOk_mono cs 0 1 (by omega) h
      · rw [show dashOk 0 (c :: cs) = if c = '-' then _ else dashOk 0 cs from rfl,
          if_neg hc] at h
        exact h
    by_cases hcond : c = '-' ∧ cs.take 2 = ['-', '-']
    · exfalso
      obtain ⟨hc, htake⟩ := hcond
      subst hc
      rcases cs with _ | ⟨d, cs'⟩
      · cases htake
      · rcases cs' with _ | ⟨e, rest⟩
        · cases htake
        · simp only [List.take, List.cons.injEq, and_true] at htake
          obtain ⟨hd, he⟩ := htake
          subst hd
          subst he
          rw [show dashOk 0 ('-' :: '-' :: '-' :: rest) =
              dashOk 1 ('-' :: '-' :: rest) by simp [dashOk],
            show dashOk 1 ('-' :: '-' :: rest) = dashOk 2 ('-' :: rest) by simp [dashOk],
            show dashOk 2 ('-' :: rest) = false by simp [dashOk]] at h
          cases h
    · rw [show splitDash3 (c :: cs) =
        if c = '-' ∧ cs.take 2 = ['-', '-'] then some ([], cs.drop 2)
        else match splitDash3 cs with
          | none => none
          | some (p1, r) => some (c :: p1, r) from rfl,
        if_neg hcond, ih hrec]

lemma take2_stable (cs w w' : List Char) :
    (cs ++ '-' :: '-' :: w).take 2 = (cs ++ '-' :: '-' :: w').take 2 := by
  match cs with
  | [] => rfl
  | [d] => rfl
  | d :: e :: rest => rfl

lemma splitDash3_append_sep (xs : List Char) :
    ∀ ys, splitDash3 (xs ++ ['-', '-']) = none →
      splitDash3 (xs ++ '-' :: '-' :: '-' :: ys) = some (xs, ys) := by
  induction xs with
  | nil =>
    intro ys _
    rfl
  | cons c cs ih =>
    intro ys h
    rw [List.cons_append] at h
    rw [show splitDash3 (c :: (cs ++ ['-', '-'])) =
        if c = '-' ∧ (cs ++ ['-', '-']).take 2 = ['-', '-'] then
          some ([], (cs ++ ['-', '-']).drop 2)
        else match splitDash3 (cs ++ ['-', '-']) with
          | none => none
          | some (p1, r) => some (c :: p1, r) from rfl] at h
    by_cases hcond : c = '-' ∧ (cs ++ ['-', '-']).take 2 = ['-', '-']
    · rw [if_pos hcond] at h
      cases h
    · rw [if_neg hcond] at h
      have hrec : splitDash3 (cs ++ ['-', '-']) = none := by
        rcases hsp : splitDash3 (cs ++ ['-', '-']) with _ | ⟨p1, r⟩
        · rfl
        · rw [hsp] at h
          cases h
      have hcond2 : ¬ (c = '-' ∧ (cs ++ '-' :: '-' :: '-' :: ys).take 2 = ['-', '-']) := by
        intro hx
        apply hcond
        refine ⟨hx.1, ?_⟩
        rw [show (cs ++ ['-', '-'] : List Char) = cs ++ '-' :: '-' :: ([] : List Char)
          from rfl, take2_stable cs [] ('-' :: ys)]
        exact hx.2
      rw [List.cons_append,
        show splitDash3 (c :: (cs ++ '-' :: '-' :: '-' :: ys)) =
          if c = '-' ∧ (cs ++ '-' :: '-' :: '-' :: ys).take 2 = ['-', '-'] then
            some ([], (cs ++ '-' :: '-' :: '-' :: ys).drop 2)
          else match splitDash3 (cs ++ '-' :: '-' :: '-' :: ys) with
            | none => none
            | some (p1, r) => some (c :: p1, r) from rfl,
        if_neg hcond2, ih ys hrec]

/-! ### Support lemmas: directory map -/

lemma fsGet_fsSet_self {DT : Type} (fs : FS DT) (n : String) (f : FSFile DT) :
    fsGet (fsSet fs n f) n = some f := by
  simp [fsGet, fsSet, List.find?]

lemma fsGet_fsErase_self {DT : Type} (fs : FS DT) (n : String) :
    fsGet (fsErase fs n) n = none := by
  unfold fsGet fsErase
  induction fs with
  | nil => rfl
  | cons e es ih =>
    by_cases he : e.1 = n
    · simpa [List.filter, he] using ih
    · simpa [List.filter, he, List.find?] using ih

/-! ### Support lemmas: scalar round trip through the modelled YAML -/

lemma unescQ_escQ (l : List Char) : unescQ (escQ l) = l := by
  induction l with
  | nil => rfl
  | cons c cs ih =>
    by_cases hc : c = '\''
    · subst hc
      rw [show escQ ('\'' :: cs) = '\'' :: '\'' :: escQ cs by simp [escQ],
        show unescQ ('\'' :: '\'' :: escQ cs) = '\'' :: unescQ (escQ cs) by
          simp [unescQ], ih]
    · rw [show escQ (c :: cs) = c :: escQ cs by simp [escQ, hc]]
      rcases hs : escQ cs with _ | ⟨d, rest⟩
      · have hcs : cs = [] := by
          rw [hs] at ih
          exact ih.symm
        rw [hcs]
        rfl
      · rw [show unescQ (c :: d :: rest) = c :: unescQ (d :: rest) by
          simp [unescQ, hc], ← hs, ih]

lemma isAlpha_not_digit {c : Char} (h : c.isAlpha = true) : c.isDigit = false := by
  simp only [Char.isAlpha, Char.isUpper, Char.isLower, Bool.or_eq_true, Bool.and_eq_true,
    decide_eq_true_eq] at h
  simp only [Char.isDigit]
  rcases h with ⟨h1, _⟩ | ⟨h1, _⟩
  · have h57 : ¬ c.val ≤ 57 := fun hle => absurd (UInt32.le_trans h1 hle) (by decide)
    simp [h57]
  · have h57 : ¬ c.val ≤ 57 := fun hle => absurd (UInt32.le_trans h1 hle) (by decide)
    simp [h57]

lemma isAlpha_ne_quote {c : Char} (h : c.isAlpha = true) : ¬ c = '\'' := by
  intro he
  rw [he] at h
  exact absurd h (by decide)

lemma mk_data (v : String) : String.mk v.data = v := by
  cases v
  rfl

lemma parseVal_renderVal (v : String) : parseVal (renderVal v).data = some (.str v) := by
  unfold renderVal
  by_cases hps : isPlainSafe v = true
  · rw [if_pos hps]
    unfold isPlainSafe at hps
    rcases hv : v.data with _ | ⟨c, rest⟩
    · rw [hv] at hps
      cases hps
    · rw [hv] at hps
      simp only [Bool.and_eq_true] at hps
      have hc : c.isAlpha = true := hps.1.1.1
      rw [show parseVal (c :: rest) =
          if c = '\'' then
            if rest ≠ [] ∧ rest.getLast? = some '\'' then
              some (.str (String.mk (unescQ rest.dropLast)))
            else none
          else if (c :: rest).all Char.isDigit then
            some (.int ((c :: rest).foldl (fun n d => n * 10 + (d.toNat - 48)) 0))
          else some (.str (String.mk (c :: rest))) from rfl,
        if_neg (isAlpha_ne_quote hc),
        if_neg (by
          simp only [List.all_cons, Bool.and_eq_true]
          intro hx
          rw [isAlpha_not_digit hc] at hx
          cases hx.1), ← hv, mk_data]
  · rw [if_neg hps]
    rw [show (String.mk ('\'' :: (escQ v.data ++ ['\'']))).data =
      '\'' :: (escQ v.data ++ ['\'']) from rfl]
    rw [show parseVal ('\'' :: (escQ v.data ++ ['\''])) =
      if ('\'' : Char) = '\'' then
        if escQ v.data ++ ['\''] ≠ [] ∧ (escQ v.data ++ ['\'']).getLast? = some '\'' then
          some (.str (String.mk (unescQ (escQ v.data ++ ['\'']).dropLast)))
        else none
      else if (('\'' : Char) :: (escQ v.data ++ ['\''])).all Char.isDigit then
        some (.int ((('\'' : Char) :: (escQ v.data ++ ['\''])).foldl
          (fun n d => n * 10 + (d.toNat - 48)) 0))
      else some (.str (String.mk (('\'' : Char) :: (escQ v.data ++ ['\''])))) from rfl,
      if_pos rfl, if_pos ⟨by simp, List.getLast?_concat _⟩, List.dropLast_concat,
      unescQ_escQ, mk_data]


/-- A metadata value is inside the modelled round-trip domain when it
contains no line break and no occurrence of the delimiter `---`. -/
def valueOk (v : String) : Bool :=
  v.data.all (fun c => ¬ (c = '\n' ∨ c = '\r')) && dashOk 0 v.data

lemma all_escQ (p : Char → Bool) (hq : p '\'' = true) (l : List Char) :
    (escQ l).all p = l.all p := by
  induction l with
  | nil => rfl
  | cons c cs ih =>
    by_cases hc : c = '\''
    · subst hc
      rw [show escQ ('\'' :: cs) = '\'' :: '\'' :: escQ cs by simp [escQ]]
      simp [hq, ih]
    · rw [show escQ (c :: cs) = c :: escQ cs by simp [escQ, hc]]
      simp [ih]

lemma dashOk_escQ (l : List Char) : ∀ k, dashOk k (escQ l) = dashOk k l := by
  induction l with
  | nil => intro k; rfl
  | cons c cs ih =>
    intro k
    by_cases hc : c = '\''
    · subst hc
      rw [show escQ ('\'' :: cs) = '\'' :: '\'' :: escQ cs by simp [escQ],
        show dashOk k ('\'' :: '\'' :: escQ cs) = dashOk 0 (escQ cs) by simp [dashOk],
        show dashOk k ('\'' :: cs) = dashOk 0 cs by simp [dashOk], ih 0]
    · rw [show escQ (c :: cs) = c :: escQ cs by simp [escQ, hc]]
      by_cases hd : c = '-'
      · subst hd
        by_cases hk : 2 ≤ k
        · rw [show dashOk k ('-' :: escQ cs) = false by simp [dashOk, hk],
            show dashOk k ('-' :: cs) = false by simp [dashOk, hk]]
        · rw [show dashOk k ('-' :: escQ cs) = dashOk (k + 1) (escQ cs) by
              simp [dashOk, hk],
            show dashOk k ('-' :: cs) = dashOk (k + 1) cs by simp [dashOk, hk],
            ih (k + 1)]
      · rw [show dashOk k (c :: escQ cs) = dashOk 0 (escQ cs) by simp [dashOk, hd],
          show dashOk k (c :: cs) = dashOk 0 cs by simp [dashOk, hd], ih 0]

lemma dashOk_renderVal (v : String) (h : dashOk 0 v.data = true) :
    dashOk 0 (renderVal v).data = true := by
  unfold renderVal
  by_cases hps : isPlainSafe v = true
  · rw [if_pos hps]
    exact h
  · rw [if_neg hps]
    rw [show (String.mk ('\'' :: (escQ v.data ++ ['\'']))).data =
      '\'' :: (escQ v.data ++ ['\'']) from rfl,
      show dashOk 0 ('\'' :: (escQ v.data ++ ['\''])) =
        dashOk 0 (escQ v.data ++ ['\'']) by simp [dashOk],
      dashOk_append, dashOk_escQ, h]
    rw [show dashOk (endRun 0 (escQ v.data)) ['\''] = true by simp [dashOk]]
    rfl

lemma noBreak_renderVal (v : String)
    (h : v.data.all (fun c => ¬ (c = '\n' ∨ c = '\r')) = true) :
    ((renderVal v).data.all (fun c => ¬ (c = '\n' ∨ c = '\r'))) = true := by
  unfold renderVal
  by_cases hps : isPlainSafe v = true
  · rw [if_pos hps]
    exact h
  · rw [if_neg hps]
    rw [show (String.mk ('\'' :: (escQ v.data ++ ['\'']))).data =
      '\'' :: (escQ v.data ++ ['\'']) from rfl,
      List.all_cons, List.all_append,
      all_escQ (fun c => ¬ (c = '\n' ∨ c = '\r')) (by decide) v.data, h]
    decide

lemma plainChar_not_ws {c : Char} (h : plainChar c = true) (hs : c ≠ ' ') :
    pyWs c = false := by
  have halpha : c.isAlpha = true → c.isWhitespace = false := by
    intro ha
    have h1 : c ≠ '\t' := fun he => by rw [he] at ha; exact absurd ha (by decide)
    have h2 : c ≠ '\r' := fun he => by rw [he] at ha; exact absurd ha (by decide)
    have h3 : c ≠ '\n' := fun he => by rw [he] at ha; exact absurd ha (by decide)
    have h4 : c ≠ ' ' := fun he => by rw [he] at ha; exact absurd ha (by decide)
    simp [Char.isWhitespace, h1, h2, h3, h4]
  have hdigit : c.isDigit = true → c.isWhitespace = false := by
    intro ha
    have h1 : c ≠ '\t' := fun he => by rw [he] at ha; exact absurd ha (by decide)
    have h2 : c ≠ '\r' := fun he => by rw [he] at ha; exact absurd ha (by decide)
    have h3 : c ≠ '\n' := fun he => by rw [he] at ha; exact absurd ha (by decide)
    have h4 : c ≠ ' ' := fun he => by rw [he] at ha; exact absurd ha (by decide)
    simp [Char.isWhitespace, h1, h2, h3, h4]
  simp only [plainChar, Bool.or_eq_true] at h
  rcases h with ((((ha | hd) | hsp) | hu) | hh)
  · exact halpha ha
  · exact hdigit hd
  · exact absurd (by simpa using hsp) hs
  · have : c = '_' := by simpa using hu
    subst this
    decide
  · have : c = '-' := by simpa using hh
    subst this
    decide


lemma renderVal_getLast_not_ws (v : String) (c : Char)
    (h : (renderVal v).data.getLast? = some c) : pyWs c = false := by
  unfold renderVal at h
  by_cases hps : isPlainSafe v = true
  · rw [if_pos hps] at h
    unfold isPlainSafe at hps
    rcases hv : v.data with _ | ⟨d, rest⟩
    · rw [hv] at h
      cases h
    · rw [hv] at hps
      simp only [Bool.and_eq_true] at hps
      have hall : (d :: rest).all plainChar = true := hps.1.1.2
      have hlast : ((d :: rest).getLast? ≠ some ' ') := by
        have := hps.1.2
        simpa using this
      rw [hv] at h
      have hc : c ∈ d :: rest := by
        have := List.getLast?_eq_getLast (d :: rest) (by simp)
        rw [this] at h
        injection h with h2
        rw [← h2]
        exact List.getLast_mem _
      have hpc : plainChar c = true := by
        rw [List.all_eq_true] at hall
        exact hall c hc
      have hcs : c ≠ ' ' := by
        intro he
        subst he
        exact hlast h
      exact plainChar_not_ws hpc hcs
  · rw [if_neg hps] at h
    rw [show (String.mk ('\'' :: (escQ v.data ++ ['\'']))).data =
      '\'' :: (escQ v.data ++ ['\'']) from rfl] at h
    have : ('\'' :: (escQ v.data ++ ['\''])).getLast? = some '\'' := by
      rw [show ('\'' :: (escQ v.data ++ ['\''])) = ('\'' :: escQ v.data) ++ ['\''] by
        simp, List.getLast?_concat]
    rw [this] at h
    injection h with h2
    rw [← h2]
    decide

lemma splitColonSp_append (k : List Char) :
    ∀ v, (∀ c ∈ k, c ≠ ':') → splitColonSp (k ++ ':' :: ' ' :: v) = some (k, v) := by
  induction k with
  | nil =>
    intro v _
    rfl
  | cons c cs ih =>
    intro v hk
    have hcne : c ≠ ':' := hk c (by simp)
    rw [List.cons_append,
      show splitColonSp (c :: (cs ++ ':' :: ' ' :: v)) =
        if c = ':' ∧ (cs ++ ':' :: ' ' :: v).head? = some ' ' then
          some ([], (cs ++ ':' :: ' ' :: v).tail)
        else match splitColonSp (cs ++ ':' :: ' ' :: v) with
          | none => none
          | some (k2, v2) => some (c :: k2, v2) from rfl,
      if_neg (fun hx => hcne hx.1), ih v (fun d hd => hk d (by simp [hd]))]

lemma parseKV_dumpLine (k v : String) (hk : ∀ c ∈ k.data, c ≠ ':') :
    parseKV (dumpLineCL k v) = some (k, .str v) := by
  unfold parseKV dumpLineCL
  rw [splitColonSp_append k.data (renderVal v).data hk]
  simp only [parseVal_renderVal, mk_data]

lemma splitNL_no_nl (l : List Char) (h : ∀ c ∈ l, c ≠ '\n') :
    splitNL l = [l] := by
  induction l with
  | nil => rfl
  | cons c cs ih =>
    have hc : c ≠ '\n' := h c (by simp)
    rw [show splitNL (c :: cs) =
      if c = '\n' then [] :: splitNL cs
      else match splitNL cs with
        | [] => [[c]]
        | l2 :: ls => (c :: l2) :: ls from rfl,
      if_neg hc, ih (fun d hd => h d (by simp [hd]))]

lemma splitNL_append (l : List Char) :
    ∀ r, (∀ c ∈ l, c ≠ '\n') → splitNL (l ++ '\n' :: r) = l :: splitNL r := by
  induction l with
  | nil =>
    intro r _
    rfl
  | cons c cs ih =>
    intro r hk
    have hc : c ≠ '\n' := hk c (by simp)
    rw [List.cons_append,
      show splitNL (c :: (cs ++ '\n' :: r)) =
        if c = '\n' then [] :: splitNL (cs ++ '\n' :: r)
        else match splitNL (cs ++ '\n' :: r) with
          | [] => [[c]]
          | l2 :: ls => (c :: l2) :: ls from rfl,
      if_neg hc, ih r (fun d hd => hk d (by simp [hd]))]

lemma pyStrip_cons_ws (c : Char) (l : List Char) (h : pyWs c = true) :
    pyStrip (c :: l) = pyStrip l := by
  simp [pyStrip, stripBoth, List.dropWhile_cons_of_pos (p := pyWs) h]

lemma pyStrip_block (d : Char) (rest : List Char) (hd : pyWs d = false)
    (hlast : ∀ e, (d :: rest).getLast? = some e → pyWs e = false) :
    pyStrip ('\n' :: ((d :: rest) ++ ['\n'])) = d :: rest := by
  rw [pyStrip_cons_ws '\n' _ (by decide)]
  unfold pyStrip stripBoth
  rw [List.cons_append, List.dropWhile_cons_of_neg (p := pyWs) (by simp [hd]),
    ← List.cons_append, List.rdropWhile_concat_pos _ _ _ (show pyWs '\n' = true by decide)]
  rw [List.rdropWhile_eq_self_iff]
  intro hne
  have := hlast ((d :: rest).getLast hne) (List.getLast?_eq_getLast _ hne)
  simp [this]


lemma splitDash3_sep_head (w : List Char) :
    splitDash3 ('-' :: '-' :: '-' :: w) = some ([], w) := rfl

lemma dashOk_dumpLineCL (k v : String) (hk1 : dashOk 0 k.data = true)
    (hk2 : endRun 0 k.data = 0) (hv : dashOk 0 v.data = true) :
    dashOk 0 (dumpLineCL k v) = true := by
  unfold dumpLineCL
  rw [dashOk_append, hk1, hk2,
    show dashOk 0 (':' :: ' ' :: (renderVal v).data) = dashOk 0 (renderVal v).data by
      simp [dashOk],
    dashOk_renderVal v hv]
  rfl

lemma dumpLineCL_no_nl (k v : String) (hk : ∀ c ∈ k.data, c ≠ '\n')
    (hv : v.data.all (fun c => ¬ (c = '\n' ∨ c = '\r')) = true) :
    ∀ c ∈ dumpLineCL k v, c ≠ '\n' := by
  intro c hc
  unfold dumpLineCL at hc
  rcases List.mem_append.mp hc with h | h
  · exact hk c h
  · rcases List.mem_cons.mp h with h1 | h2
    · subst h1
      decide
    · rcases List.mem_cons.mp h2 with h1 | h3
      · subst h1
        decide
      · have := noBreak_renderVal v hv
        rw [List.all_eq_true] at this
        have hx := this c h3
        simp only [decide_eq_true_eq] at hx
        intro he
        exact hx (Or.inl he)

lemma renderVal_ne_nil (v : String) :
    (renderVal v).data ≠ [] := by
  unfold renderVal
  by_cases hps : isPlainSafe v = true
  · rw [if_pos hps]
    unfold isPlainSafe at hps
    rcases hv : v.data with _ | ⟨c, rest⟩
    · rw [hv] at hps
      cases hps
    · simp
  · rw [if_neg hps]
    simp

lemma getLast?_cons_of_ne_nil (c : Char) (l : List Char) (h : l ≠ []) :
    (c :: l).getLast? = l.getLast? := by
  rcases l with _ | ⟨d, ds⟩
  · cases h rfl
  · rfl

lemma getLast?_dumpLineCL (k v : String) :
    (dumpLineCL k v).getLast? = (renderVal v).data.getLast? := by
  unfold dumpLineCL
  have hne : (renderVal v).data ≠ [] := renderVal_ne_nil v
  rw [List.getLast?_append]
  rw [getLast?_cons_of_ne_nil ':' _ (by simp),
    getLast?_cons_of_ne_nil ' ' _ hne]
  rcases hx : (renderVal v).data.getLast? with _ | d
  · exfalso
    rcases hy : (renderVal v).data with _ | ⟨e, es⟩
    · exact hne hy
    · rw [hy, List.getLast?_eq_getLast _ (by simp)] at hx
      cases hx
  · rfl


lemma valueOk_break {v : String} (h : valueOk v = true) :
    v.data.all (fun c => ¬ (c = '\n' ∨ c = '\r')) = true := by
  unfold valueOk at h
  exact ((Bool.and_eq_true _ _).mp h).1

lemma valueOk_dash {v : String} (h : valueOk v = true) : dashOk 0 v.data = true := by
  unfold valueOk at h
  exact ((Bool.and_eq_true _ _).mp h).2

lemma data_mk (l : List Char) : (String.mk l).data = l := rfl

/-- The dumped front-matter body of a record: five `key: value` lines. -/
def dumpJ {DT : Type} (K : TimeKit DT) (t : Template DT) : List Char :=
  dumpLineCL "title" t.title ++ '\n' ::
    (dumpLineCL "description" t.description ++ '\n' ::
      (dumpLineCL "username" t.username ++ '\n' ::
        (dumpLineCL "created_at" (K.iso t.created_at) ++ '\n' ::
          dumpLineCL "updated_at" (K.iso t.updated_at))))

lemma writeTemplateContent_data {DT : Type} (K : TimeKit DT) (t : Template DT) :
    (writeTemplateContent K t).data =
      '-' :: '-' :: '-' :: '\n' ::
        (dumpJ K t ++ ('\n' :: ('-' :: '-' :: '-' :: ('\n' :: '\n' :: t.content.data)))) := by
  simp only [writeTemplateContent, yamlDump, dumpJ, String.data_append, data_mk,
    List.map, joinNL, List.append_assoc, List.cons_append, List.nil_append]

lemma dashOk_cons_nl (e : Nat) (rest : List Char) :
    dashOk e ('\n' :: rest) = dashOk 0 rest := by
  simp [dashOk]

lemma dashOk_dumpJ {DT : Type} (K : TimeKit DT) (t : Template DT)
    (h1 : valueOk t.title = true) (h2 : valueOk t.description = true)
    (h3 : valueOk t.username = true) (h4 : valueOk (K.iso t.created_at) = true)
    (h5 : valueOk (K.iso t.updated_at) = true) :
    dashOk 0 (dumpJ K t) = true := by
  unfold dumpJ
  rw [dashOk_append, dashOk_dumpLineCL _ _ (by decide) (by decide) (valueOk_dash h1),
    dashOk_cons_nl,
    dashOk_append, dashOk_dumpLineCL _ _ (by decide) (by decide) (valueOk_dash h2),
    dashOk_cons_nl,
    dashOk_append, dashOk_dumpLineCL _ _ (by decide) (by decide) (valueOk_dash h3),
    dashOk_cons_nl,
    dashOk_append, dashOk_dumpLineCL _ _ (by decide) (by decide) (valueOk_dash h4),
    dashOk_cons_nl,
    dashOk_dumpLineCL _ _ (by decide) (by decide) (valueOk_dash h5)]
  rfl

lemma endRun_dumpJ_nl {DT : Type} (K : TimeKit DT) (t : Template DT) :
    endRun 0 ((dumpJ K t) ++ ['\n']) = 0 := by
  rw [endRun_append]
  rfl

lemma pySplitDash2_write {DT : Type} (K : TimeKit DT) (t : Template DT)
    (h1 : valueOk t.title = true) (h2 : valueOk t.description = true)
    (h3 : valueOk t.username = true) (h4 : valueOk (K.iso t.created_at) = true)
    (h5 : valueOk (K.iso t.updated_at) = true) :
    pySplitDash2 (writeTemplateContent K t).data =
      [[], '\n' :: (dumpJ K t ++ ['\n']), '\n' :: '\n' :: t.content.data] := by
  have hnone : splitDash3 (('\n' :: (dumpJ K t ++ ['\n'])) ++ ['-', '-']) = none := by
    apply splitDash3_none_of_dashOk
    rw [show ('\n' :: (dumpJ K t ++ ['\n'])) ++ ['-', '-'] =
      '\n' :: ((dumpJ K t ++ ['\n']) ++ ['-', '-']) from rfl, dashOk_cons_nl,
      dashOk_append, dashOk_append, dashOk_dumpJ K t h1 h2 h3 h4 h5,
      endRun_dumpJ_nl]
    rfl
  have hsplit2 : splitDash3 ('\n' :: (dumpJ K t ++
      ('\n' :: ('-' :: '-' :: '-' :: ('\n' :: '\n' :: t.content.data))))) =
      some ('\n' :: (dumpJ K t ++ ['\n']), '\n' :: '\n' :: t.content.data) := by
    have hshape : '\n' :: (dumpJ K t ++
        ('\n' :: ('-' :: '-' :: '-' :: ('\n' :: '\n' :: t.content.data)))) =
        ('\n' :: (dumpJ K t ++ ['\n'])) ++
          '-' :: '-' :: '-' :: ('\n' :: '\n' :: t.content.data) := by
      simp [List.append_assoc]
    rw [hshape]
    exact splitDash3_append_sep _ _ hnone
  unfold pySplitDash2
  rw [writeTemplateContent_data, splitDash3_sep_head]
  simp only [hsplit2]


lemma getLast?_append_cons (A : List Char) (c : Char) (B : List Char) (h : B ≠ []) :
    (A ++ c :: B).getLast? = B.getLast? := by
  rcases hB : B.getLast? with _ | d
  · exfalso
    rcases B with _ | ⟨e, es⟩
    · exact h rfl
    · rw [List.getLast?_eq_getLast _ (by simp)] at hB
      cases hB
  · rw [List.getLast?_append, getLast?_cons_of_ne_nil c B h, hB]
    rfl

lemma dumpLineCL_ne_nil (k v : String) (hk : k.data ≠ []) : dumpLineCL k v ≠ [] := by
  unfold dumpLineCL
  rcases h : k.data with _ | ⟨c, cs⟩
  · exact absurd h hk
  · simp

lemma getLast?_dumpJ {DT : Type} (K : TimeKit DT) (t : Template DT) :
    (dumpJ K t).getLast? = (renderVal (K.iso t.updated_at)).data.getLast? := by
  unfold dumpJ
  rw [getLast?_append_cons _ _ _ (by simp [dumpLineCL]),
    getLast?_append_cons _ _ _ (by simp [dumpLineCL]),
    getLast?_append_cons _ _ _ (by simp [dumpLineCL]),
    getLast?_append_cons _ _ _ (dumpLineCL_ne_nil _ _ (by decide)),
    getLast?_dumpLineCL]

lemma pyStrip_dumpJ {DT : Type} (K : TimeKit DT) (t : Template DT) :
    pyStrip ('\n' :: (dumpJ K t ++ ['\n'])) = dumpJ K t := by
  have hshape : dumpJ K t = 't' ::
      (("itle".data ++ ':' :: ' ' :: (renderVal t.title).data) ++ '\n' ::
        (dumpLineCL "description" t.description ++ '\n' ::
          (dumpLineCL "username" t.username ++ '\n' ::
            (dumpLineCL "created_at" (K.iso t.created_at) ++ '\n' ::
              dumpLineCL "updated_at" (K.iso t.updated_at))))) := rfl
  rw [hshape]
  apply pyStrip_block
  · decide
  · intro e he
    rw [← hshape, getLast?_dumpJ] at he
    exact renderVal_getLast_not_ws _ e he

lemma splitNL_dumpJ {DT : Type} (K : TimeKit DT) (t : Template DT)
    (h1 : valueOk t.title = true) (h2 : valueOk t.description = true)
    (h3 : valueOk t.username = true) (h4 : valueOk (K.iso t.created_at) = true)
    (h5 : valueOk (K.iso t.updated_at) = true) :
    splitNL (dumpJ K t) =
      [dumpLineCL "title" t.title, dumpLineCL "description" t.description,
       dumpLineCL "username" t.username, dumpLineCL "created_at" (K.iso t.created_at),
       dumpLineCL "updated_at" (K.iso t.updated_at)] := by
  unfold dumpJ
  rw [splitNL_append _ _ (dumpLineCL_no_nl _ _ (by decide) (valueOk_break h1)),
    splitNL_append _ _ (dumpLineCL_no_nl _ _ (by decide) (valueOk_break h2)),
    splitNL_append _ _ (dumpLineCL_no_nl _ _ (by decide) (valueOk_break h3)),
    splitNL_append _ _ (dumpLineCL_no_nl _ _ (by decide) (valueOk_break h4)),
    splitNL_no_nl _ (dumpLineCL_no_nl _ _ (by decide) (valueOk_break h5))]

lemma yamlLoad_dumpJ {DT : Type} (K : TimeKit DT) (t : Template DT)
    (h1 : valueOk t.title = true) (h2 : valueOk t.description = true)
    (h3 : valueOk t.username = true) (h4 : valueOk (K.iso t.created_at) = true)
    (h5 : valueOk (K.iso t.updated_at) = true) :
    yamlLoad (String.mk (dumpJ K t)) = .dict
      [("title", .str t.title), ("description", .str t.description),
       ("username", .str t.username), ("created_at", .str (K.iso t.created_at)),
       ("updated_at", .str (K.iso t.updated_at))] := by
  have hp1 : parseKV (dumpLineCL "title" t.title) = some ("title", .str t.title) :=
    parseKV_dumpLine _ _ (by decide)
  have hp2 : parseKV (dumpLineCL "description" t.description) =
      some ("description", .str t.description) := parseKV_dumpLine _ _ (by decide)
  have hp3 : parseKV (dumpLineCL "username" t.username) =
      some ("username", .str t.username) := parseKV_dumpLine _ _ (by decide)
  have hp4 : parseKV (dumpLineCL "created_at" (K.iso t.created_at)) =
      some ("created_at", .str (K.iso t.created_at)) := parseKV_dumpLine _ _ (by decide)
  have hp5 : parseKV (dumpLineCL "updated_at" (K.iso t.updated_at)) =
      some ("updated_at", .str (K.iso t.updated_at)) := parseKV_dumpLine _ _ (by decide)
  unfold yamlLoad
  rw [data_mk, splitNL_dumpJ K t h1 h2 h3 h4 h5]
  simp only [List.all_cons, List.all_nil, hp1, hp2, hp3, hp4, hp5, Option.isSome_some,
    Bool.and_self, Bool.and_true, if_true, List.filterMap_cons, List.filterMap_nil]

lemma dumpJ_ne_nil {DT : Type} (K : TimeKit DT) (t : Template DT) : dumpJ K t ≠ [] := by
  unfold dumpJ
  simp

lemma extractParts_write {DT : Type} (K : TimeKit DT) (t : Template DT)
    (h1 : valueOk t.title = true) (h2 : valueOk t.description = true)
    (h3 : valueOk t.username = true) (h4 : valueOk (K.iso t.created_at) = true)
    (h5 : valueOk (K.iso t.updated_at) = true) :
    extractParts (writeTemplateContent K t) =
      ([("title", .str t.title), ("description", .str t.description),
        ("username", .str t.username), ("created_at", .str (K.iso t.created_at)),
        ("updated_at", .str (K.iso t.updated_at))],
       String.mk (pyStrip t.content.data)) := by
  have hpref : (['-', '-', '-'].isPrefixOf (writeTemplateContent K t).data) = true := by
    rw [writeTemplateContent_data]
    rfl
  unfold extractParts
  rw [if_pos hpref, pySplitDash2_write K t h1 h2 h3 h4 h5]
  simp only [pyStrip_dumpJ]
  rw [if_neg (dumpJ_ne_nil K t), yamlLoad_dumpJ K t h1 h2 h3 h4 h5,
    pyStrip_cons_ws '\n' _ (by decide), pyStrip_cons_ws '\n' _ (by decide)]


lemma readTemplateContent_write {DT : Type} (K : TimeKit DT) (t : Template DT)
    (fileName : String) (mtime : DT)
    (h1 : valueOk t.title = true) (h2 : valueOk t.description = true)
    (h3 : valueOk t.username = true) (h4 : valueOk (K.iso t.created_at) = true)
    (h5 : valueOk (K.iso t.updated_at) = true)
    (hne1 : K.iso t.created_at ≠ "") (hne2 : K.iso t.updated_at ≠ "")
    (hc : K.fromIso (K.iso t.created_at) = some t.created_at)
    (hu : K.fromIso (K.iso t.updated_at) = some t.updated_at)
    (ha1 : K.isAware t.created_at = true) (ha2 : K.isAware t.updated_at = true)
    (hcontent : pyStrip t.content.data = t.content.data) :
    readTemplateContent K fileName mtime (writeTemplateContent K t) = .ok t := by
  have hg_t : ymGet [("title", YVal.str t.title), ("description", YVal.str t.description),
      ("username", YVal.str t.username), ("created_at", YVal.str (K.iso t.created_at)),
      ("updated_at", YVal.str (K.iso t.updated_at))] "title" = some (.str t.title) := rfl
  have hg_d : ymGet [("title", YVal.str t.title), ("description", YVal.str t.description),
      ("username", YVal.str t.username), ("created_at", YVal.str (K.iso t.created_at)),
      ("updated_at", YVal.str (K.iso t.updated_at))] "description" =
      some (.str t.description) := rfl
  have hg_n : ymGet [("title", YVal.str t.title), ("description", YVal.str t.description),
      ("username", YVal.str t.username), ("created_at", YVal.str (K.iso t.created_at)),
      ("updated_at", YVal.str (K.iso t.updated_at))] "username" =
      some (.str t.username) := rfl
  have hg_c : ymGet [("title", YVal.str t.title), ("description", YVal.str t.description),
      ("username", YVal.str t.username), ("created_at", YVal.str (K.iso t.created_at)),
      ("updated_at", YVal.str (K.iso t.updated_at))] "created_at" =
      some (.str (K.iso t.created_at)) := rfl
  have hg_u : ymGet [("title", YVal.str t.title), ("description", YVal.str t.description),
      ("username", YVal.str t.username), ("created_at", YVal.str (K.iso t.created_at)),
      ("updated_at", YVal.str (K.iso t.updated_at))] "updated_at" =
      some (.str (K.iso t.updated_at)) := rfl
  have htr1 : truthy (some (.str (K.iso t.created_at))) = true := by simp [truthy, hne1]
  have htr2 : truthy (some (.str (K.iso t.updated_at))) = true := by simp [truthy, hne2]
  simp only [readTemplateContent, extractParts_write K t h1 h2 h3 h4 h5,
    hg_t, hg_d, hg_n, hg_c, hg_u, htr1, htr2, hc, hu, ha1, ha2,
    not_true, or_self, if_true, if_false, Bool.not_true, ite_true, ite_false]
  simp only [hcontent, mk_data]


/-- C2 counterexample: the claim as stated fails on the code.  For the
well-formed record with title `doc`, description `d`, owner `alice` and
content `hello` followed by a newline, `parse(serialize(r))` succeeds but
returns content `hello`: the parser strips leading and trailing whitespace
from the content part (repository.py line 132, `parts[2].strip()`), so the
content is not reproduced exactly. -/
theorem C2_roundtrip_counterexample :
    readTemplateContent natKit "doc.md" 7
        (writeTemplateContent natKit ⟨"doc", "hello\n", "d", "alice", 0, 0⟩) =
      .ok ⟨"doc", "hello", "d", "alice", 0, 0⟩ ∧
    ("hello" : String) ≠ "hello\n" :=
  ⟨by decide, by decide⟩

/-- C2 (amended): `parse(serialize(r))` reproduces `r` exactly — title,
content, description, owner, and both timestamps (hence the same instants)
— provided additionally that the metadata fields and rendered timestamps
contain no line break and no occurrence of the delimiter `---`, that the
rendered timestamps are nonempty, parse back to the same aware instants
(the documented `fromisoformat`/`isoformat` contract), and that the content
carries no leading or trailing whitespace (which the parser would strip,
see the counterexample). -/
theorem C2_roundtrip_amended {DT : Type} (K : TimeKit DT) (t : Template DT)
    (fileName : String) (mtime : DT)
    (h1 : valueOk t.title = true) (h2 : valueOk t.description = true)
    (h3 : valueOk t.username = true) (h4 : valueOk (K.iso t.created_at) = true)
    (h5 : valueOk (K.iso t.updated_at) = true)
    (hne1 : K.iso t.created_at ≠ "") (hne2 : K.iso t.updated_at ≠ "")
    (hc : K.fromIso (K.iso t.created_at) = some t.created_at)
    (hu : K.fromIso (K.iso t.updated_at) = some t.updated_at)
    (ha1 : K.isAware t.created_at = true) (ha2 : K.isAware t.updated_at = true)
    (hcontent : pyStrip t.content.data = t.content.data) :
    readTemplateContent K fileName mtime (writeTemplateContent K t) = .ok t :=
  readTemplateContent_write K t fileName mtime h1 h2 h3 h4 h5 hne1 hne2 hc hu ha1 ha2
    hcontent

/-- Witness for C2: the amended round trip holds at a concrete record. -/
theorem C2_roundtrip_amended_witness :
    readTemplateContent natKit "doc.md" 7
      (writeTemplateContent natKit ⟨"doc", "hello", "some desc", "alice", 3, 5⟩) =
      .ok ⟨"doc", "hello", "some desc", "alice", 3, 5⟩ :=
  C2_roundtrip_amended natKit ⟨"doc", "hello", "some desc", "alice", 3, 5⟩ "doc.md" 7
    (by decide) (by decide) (by decide) (by decide) (by decide)
    (by decide) (by decide) (by decide) (by decide) rfl rfl (by decide)


/-- C8: when the blob starts with the preamble delimiter, the enclosed block
is present and nonempty after stripping, but it is not well-formed
structured data (the load errors or yields a non-mapping), the parser
returns a record with empty metadata whose content is the whole original
blob — title reconstructed from the file name, empty description, owner
`unknown`, both timestamps from the mtime — attempting no partial
recovery. -/
theorem C8_malformed_preamble_whole_blob {DT : Type} (K : TimeKit DT)
    (fileName : String) (mtime : DT) (blob : String) (p0 p1 p2 : List Char)
    (hpre : (['-', '-', '-'].isPrefixOf blob.data) = true)
    (hparts : pySplitDash2 blob.data = [p0, p1, p2])
    (hfm : ¬ pyStrip p1 = [])
    (hbad : yamlLoad (String.mk (pyStrip p1)) = .err ∨
            yamlLoad (String.mk (pyStrip p1)) = .nonDict) :
    readTemplateContent K fileName mtime blob =
      .ok ⟨filename_to_title fileName, blob, "", "unknown", mtime, mtime⟩ := by
  have hext : extractParts blob = ([], blob) := by
    unfold extractParts
    rw [if_pos hpre]
    rcases hbad with hb | hb
    · simp only [hparts, if_neg hfm, hb]
    · simp only [hparts, if_neg hfm, hb]
  simp only [readTemplateContent, hext]
  rfl

/-- Witness for C8: a blob whose front matter mixes a mapping line with a
plain line, which PyYAML rejects. -/
theorem C8_malformed_preamble_whole_blob_witness :
    readTemplateContent natKit "my_doc.md" 42 "---\nx: y\nz\n---\n\nbody" =
      .ok ⟨"My Doc", "---\nx: y\nz\n---\n\nbody", "", "unknown", 42, 42⟩ :=
  C8_malformed_preamble_whole_blob natKit "my_doc.md" 42 "---\nx: y\nz\n---\n\nbody"
    [] ('\n' :: ('x' :: ':' :: ' ' :: 'y' :: '\n' :: 'z' :: '\n' :: []))
    ('\n' :: '\n' :: 'b' :: 'o' :: 'd' :: 'y' :: [])
    (by decide) (by decide) (by decide) (Or.inl (by decide))


/-- C7 (amended): the mtime fallback of `_read_template_file`.  Both
timestamps are replaced by the file mtime whenever either field is absent or
falsy (first conjunct), or is a string that fails ISO-8601 parsing (second
and third conjuncts, for `created_at` and `updated_at` respectively), and a
missing description defaults to the empty string and a missing owner to
`unknown`; however — the correction — a truthy non-string scalar (for
instance a bare integer) reaches `datetime.fromisoformat`, whose `TypeError`
is not caught by the `except ValueError` on line 166, so the call raises
`IOError` instead of falling back (fourth conjunct). -/
theorem C7_timestamp_fallback_amended {DT : Type} (K : TimeKit DT)
    (fileName : String) (mtime : DT) (blob : String)
    (md : List (String × YVal)) (mdContent : String)
    (hmd : extractParts blob = (md, mdContent))
    (ht : ymGet md "title" = none ∨ ∃ s, ymGet md "title" = some (.str s))
    (hd : ymGet md "description" = none ∨ ∃ s, ymGet md "description" = some (.str s))
    (hn : ymGet md "username" = none ∨ ∃ s, ymGet md "username" = some (.str s)) :
    ((¬ truthy (ymGet md "created_at") = true ∨ ¬ truthy (ymGet md "updated_at") = true) →
      ∃ r, readTemplateContent K fileName mtime blob = .ok r ∧
        r.created_at = mtime ∧ r.updated_at = mtime ∧
        (ymGet md "description" = none → r.description = "") ∧
        (ymGet md "username" = none → r.username = "unknown")) ∧
    (∀ cs, ymGet md "created_at" = some (.str cs) → K.fromIso cs = none →
      truthy (ymGet md "created_at") = true → truthy (ymGet md "updated_at") = true →
      ∃ r, readTemplateContent K fileName mtime blob = .ok r ∧
        r.created_at = mtime ∧ r.updated_at = mtime ∧
        (ymGet md "description" = none → r.description = "") ∧
        (ymGet md "username" = none → r.username = "unknown")) ∧
    (∀ cs cd us, ymGet md "created_at" = some (.str cs) → K.fromIso cs = some cd →
      ymGet md "updated_at" = some (.str us) → K.fromIso us = none →
      truthy (ymGet md "created_at") = true → truthy (ymGet md "updated_at") = true →
      ∃ r, readTemplateContent K fileName mtime blob = .ok r ∧
        r.created_at = mtime ∧ r.updated_at = mtime ∧
        (ymGet md "description" = none → r.description = "") ∧
        (ymGet md "username" = none → r.username = "unknown")) ∧
    (∀ n, ymGet md "created_at" = some (.int n) →
      truthy (ymGet md "created_at") = true → truthy (ymGet md "updated_at") = true →
      readTemplateContent K fileName mtime blob = .error .ioErr) := by
  refine ⟨?_, ?_, ?_, ?_⟩
  · intro hif
    rcases ht with hT | ⟨ts, hT⟩ <;> rcases hd with hD | ⟨ds, hD⟩ <;>
      rcases hn with hN | ⟨ns, hN⟩ <;>
    · simp only [readTemplateContent, hmd, hT, hD, hN]
      rw [if_pos hif]
      refine ⟨_, rfl, rfl, rfl, ?_, ?_⟩
      all_goals
        intro h
        first
        | rfl
        | simp at h
  · intro cs hcv hiso htr1 htr2
    have hcond : ¬ (¬ truthy (ymGet md "created_at") = true ∨
        ¬ truthy (ymGet md "updated_at") = true) := by
      simp [htr1, htr2]
    rcases ht with hT | ⟨ts, hT⟩ <;> rcases hd with hD | ⟨ds, hD⟩ <;>
      rcases hn with hN | ⟨ns, hN⟩ <;>
    · simp only [readTemplateContent, hmd, hT, hD, hN]
      rw [if_neg hcond]
      simp only [hcv, hiso]
      refine ⟨_, rfl, rfl, rfl, ?_, ?_⟩
      all_goals
        intro h
        first
        | rfl
        | simp at h
  · intro cs cd us hcv hcsome huv huiso htr1 htr2
    have hcond : ¬ (¬ truthy (ymGet md "created_at") = true ∨
        ¬ truthy (ymGet md "updated_at") = true) := by
      simp [htr1, htr2]
    rcases ht with hT | ⟨ts, hT⟩ <;> rcases hd with hD | ⟨ds, hD⟩ <;>
      rcases hn with hN | ⟨ns, hN⟩ <;>
    · simp only [readTemplateContent, hmd, hT, hD, hN]
      rw [if_neg hcond]
      simp only [hcv, hcsome, huv, huiso]
      refine ⟨_, rfl, rfl, rfl, ?_, ?_⟩
      all_goals
        intro h
        first
        | rfl
        | simp at h
  · intro n hcv htr1 htr2
    have hcond : ¬ (¬ truthy (ymGet md "created_at") = true ∨
        ¬ truthy (ymGet md "updated_at") = true) := by
      simp [htr1, htr2]
    simp only [readTemplateContent, hmd]
    rw [if_neg hcond]
    simp only [hcv]

/-- Counterexample for C7: a front matter carrying bare-integer timestamps
(`created_at: 123`) is certainly not parsable as a timestamp, yet the parser
raises `IOError` instead of substituting the mtime: the yaml scalar `123`
loads as an int, `fromisoformat` then raises `TypeError`, which the
`except ValueError` of line 166 does not catch. -/
theorem C7_timestamp_fallback_counterexample :
    readTemplateContent natKit "my_doc.md" 42
      "---\ntitle: t\ncreated_at: 123\nupdated_at: 123\n---\n\nbody" =
      .error .ioErr := by decide

/-- Witness for C7: a record whose `created_at` is the unparsable string
`garbage` falls back to the mtime for both timestamps, with defaulted
description and owner. -/
theorem C7_timestamp_fallback_amended_witness :
    ∃ r, readTemplateContent natKit "my_doc.md" 42
      "---\ntitle: t\ncreated_at: garbage\nupdated_at: txxx\n---\n\nbody" = .ok r ∧
      r.created_at = 42 ∧ r.updated_at = 42 ∧
      (ymGet (extractParts
        "---\ntitle: t\ncreated_at: garbage\nupdated_at: txxx\n---\n\nbody").1
        "description" = none → r.description = "") ∧
      (ymGet (extractParts
        "---\ntitle: t\ncreated_at: garbage\nupdated_at: txxx\n---\n\nbody").1
        "username" = none → r.username = "unknown") :=
  (C7_timestamp_fallback_amended natKit "my_doc.md" 42
      "---\ntitle: t\ncreated_at: garbage\nupdated_at: txxx\n---\n\nbody"
      (extractParts "---\ntitle: t\ncreated_at: garbage\nupdated_at: txxx\n---\n\nbody").1
      (extractParts "---\ntitle: t\ncreated_at: garbage\nupdated_at: txxx\n---\n\nbody").2
      rfl (Or.inr ⟨"t", by decide⟩) (Or.inl (by decide)) (Or.inl (by decide))).2.1
    "garbage" (by decide) (by decide) (by decide) (by decide)


/-- C10: on the empty title, `get` (repository.py line 268), `update` (line
278) and `delete` (line 310) all raise `ValidationError` — not `NotFound` —
before touching the filesystem, so the directory state is returned
unchanged, even though the external interface of section 6 advertises only
`NotFound` and `IOError` for these operations. -/
theorem C10_empty_title_validation {DT : Type} (K : TimeKit DT)
    (nfkc : String → String) (fs : FS DT) (u : TemplateUpdate)
    (now newMtime : DT) (wo : WriteOutcome) (osFault : Bool) :
    get K nfkc fs "" = .error .validationErr ∧
    update K nfkc fs "" u now newMtime wo = (.error .validationErr, fs) ∧
    delete nfkc fs "" osFault = (.error .validationErr, fs) :=
  ⟨rfl, rfl, rfl⟩

/-- C9: `delete` on a non-empty title: an OS fault other than a missing file
surfaces as `IOError`; otherwise a missing file at the derived key fails
with `NotFound`, and a present file is removed — after which a `get` of the
same title fails with `NotFound`. -/
theorem C9_delete_semantics {DT : Type} (K : TimeKit DT)
    (nfkc : String → String) (fs : FS DT) (title : String) (osFault : Bool)
    (h : ¬ title = "") :
    (osFault = true → delete nfkc fs title osFault = (.error .ioErr, fs)) ∧
    (osFault = false →
      (fsGet fs (title_to_filename nfkc title) = none →
        delete nfkc fs title osFault = (.error .notFound, fs)) ∧
      (∀ f, fsGet fs (title_to_filename nfkc title) = some f →
        delete nfkc fs title osFault =
          (.ok true, fsErase fs (title_to_filename nfkc title)) ∧
        fsGet (fsErase fs (title_to_filename nfkc title))
          (title_to_filename nfkc title) = none ∧
        get K nfkc (fsErase fs (title_to_filename nfkc title)) title =
          .error .notFound)) := by
  refine ⟨?_, ?_⟩
  · intro ho
    subst ho
    simp only [delete, if_neg h]
    rfl
  · intro ho
    subst ho
    refine ⟨?_, ?_⟩
    · intro hn
      simp only [delete, if_neg h]
      rw [hn]
      rfl
    · intro f hf
      refine ⟨?_, fsGet_fsErase_self fs (title_to_filename nfkc title), ?_⟩
      · simp only [delete, if_neg h]
        rw [hf]
        rfl
      · simp only [get, if_neg h]
        rw [fsGet_fsErase_self]

/-- Witness for C9: deleting the stored title `t` from a one-file directory
removes `t.md`, and the subsequent `get` fails with `NotFound`. -/
theorem C9_delete_semantics_witness :
    delete id [("t.md", (⟨"x", 0⟩ : FSFile Nat))] "t" false =
      (.ok true, fsErase [("t.md", (⟨"x", 0⟩ : FSFile Nat))]
        (title_to_filename id "t")) ∧
    fsGet (fsErase [("t.md", (⟨"x", 0⟩ : FSFile Nat))] (title_to_filename id "t"))
      (title_to_filename id "t") = none ∧
    get natKit id (fsErase [("t.md", (⟨"x", 0⟩ : FSFile Nat))]
      (title_to_filename id "t")) "t" = .error .notFound :=
  ((C9_delete_semantics natKit id [("t.md", ⟨"x", 0⟩)] "t" false (by decide)).2
    rfl).2 ⟨"x", 0⟩ (by decide)


/-- Reading back a freshly serialised record recovers equal timestamps under
only the delimiter-hygiene conditions on the five rendered fields: both
timestamp lines carry the same rendered string, so both parse to the same
instant or both fall back to the mtime together. -/
lemma readTemplateContent_write_stamps {DT : Type} (K : TimeKit DT)
    (t : Template DT) (fileName : String) (mtime : DT)
    (h1 : valueOk t.title = true) (h2 : valueOk t.description = true)
    (h3 : valueOk t.username = true) (h4 : valueOk (K.iso t.created_at) = true)
    (h5 : valueOk (K.iso t.updated_at) = true)
    (heq : K.iso t.created_at = K.iso t.updated_at) :
    ∃ r, readTemplateContent K fileName mtime (writeTemplateContent K t) = .ok r ∧
      r.created_at = r.updated_at := by
  have hext := extractParts_write K t h1 h2 h3 h4 h5
  have hg_c : ymGet [("title", YVal.str t.title), ("description", YVal.str t.description),
      ("username", YVal.str t.username), ("created_at", YVal.str (K.iso t.created_at)),
      ("updated_at", YVal.str (K.iso t.updated_at))] "created_at" =
      some (.str (K.iso t.created_at)) := rfl
  have hg_u : ymGet [("title", YVal.str t.title), ("description", YVal.str t.description),
      ("username", YVal.str t.username), ("created_at", YVal.str (K.iso t.created_at)),
      ("updated_at", YVal.str (K.iso t.updated_at))] "updated_at" =
      some (.str (K.iso t.updated_at)) := rfl
  have hg_t : ymGet [("title", YVal.str t.title), ("description", YVal.str t.description),
      ("username", YVal.str t.username), ("created_at", YVal.str (K.iso t.created_at)),
      ("updated_at", YVal.str (K.iso t.updated_at))] "title" = some (.str t.title) := rfl
  have hg_d : ymGet [("title", YVal.str t.title), ("description", YVal.str t.description),
      ("username", YVal.str t.username), ("created_at", YVal.str (K.iso t.created_at)),
      ("updated_at", YVal.str (K.iso t.updated_at))] "description" =
      some (.str t.description) := rfl
  have hg_n : ymGet [("title", YVal.str t.title), ("description", YVal.str t.description),
      ("username", YVal.str t.username), ("created_at", YVal.str (K.iso t.created_at)),
      ("updated_at", YVal.str (K.iso t.updated_at))] "username" =
      some (.str t.username) := rfl
  by_cases hz : K.iso t.created_at = ""
  · have hfb : ¬ truthy (some (.str (K.iso t.created_at))) = true ∨
        ¬ truthy (some (.str (K.iso t.updated_at))) = true := by
      left
      simp [truthy, hz]
    simp only [readTemplateContent, hext, hg_c, hg_u, hg_t, hg_d, hg_n]
    rw [if_pos hfb]
    exact ⟨_, rfl, rfl⟩
  · have hz2 : ¬ K.iso t.updated_at = "" := by
      rw [← heq]
      exact hz
    have htr : ¬ (¬ truthy (some (.str (K.iso t.created_at))) = true ∨
        ¬ truthy (some (.str (K.iso t.updated_at))) = true) := by
      simp only [not_or, not_not]
      exact ⟨by simp [truthy, hz], by simp [truthy, hz2]⟩
    rcases hi : K.fromIso (K.iso t.created_at) with _ | d
    · simp only [readTemplateContent, hext, hg_c, hg_u, hg_t, hg_d, hg_n]
      rw [if_neg htr]
      simp only [hi]
      exact ⟨_, rfl, rfl⟩
    · have hi2 : K.fromIso (K.iso t.updated_at) = some d := by rw [← heq, hi]
      simp only [readTemplateContent, hext, hg_c, hg_u, hg_t, hg_d, hg_n]
      rw [if_neg htr]
      simp only [hi, hi2]
      exact ⟨_, rfl, rfl⟩


/-- C6: `create` (repository.py lines 239-264) on a non-empty title fails
with `AlreadyExists` exactly when a file already exists at the derived key
(whatever the write outcome, since the existence check precedes the write);
when the key is free and the write succeeds it stores the record with
`created_at = updated_at = now`, returns it, and leaves the serialised blob
at the key; a second `create` of the same title on the resulting state fails
with `AlreadyExists`; and, when the rendered metadata fields are free of
line breaks and `---` runs, a subsequent `get` of the title yields a record
whose `created_at` equals its `updated_at`. -/
theorem C6_create_semantics {DT : Type} (K : TimeKit DT)
    (nfkc : String → String) (fs : FS DT) (data : TemplateCreate)
    (now newMtime : DT) (wo : WriteOutcome) (h : ¬ data.title = "") :
    ((create K nfkc fs data now newMtime wo).1 = .error .alreadyExists ↔
      (fsGet fs (title_to_filename nfkc data.title)).isSome = true) ∧
    (wo = .ok → (fsGet fs (title_to_filename nfkc data.title)).isSome = false →
      create K nfkc fs data now newMtime wo =
        (.ok ⟨data.title, data.content, data.description, data.username, now, now⟩,
         fsSet (fsErase (fsSet fs (tmpName (title_to_filename nfkc data.title))
             ⟨writeTemplateContent K ⟨data.title, data.content, data.description,
               data.username, now, now⟩, newMtime⟩)
           (tmpName (title_to_filename nfkc data.title)))
           (title_to_filename nfkc data.title)
           ⟨writeTemplateContent K ⟨data.title, data.content, data.description,
             data.username, now, now⟩, newMtime⟩) ∧
      (∀ d2 n2 m2 w2, d2.title = data.title →
        (create K nfkc (create K nfkc fs data now newMtime wo).2 d2 n2 m2 w2).1 =
          .error .alreadyExists) ∧
      (valueOk data.title = true → valueOk data.description = true →
       valueOk data.username = true → valueOk (K.iso now) = true →
        ∃ r, get K nfkc (create K nfkc fs data now newMtime wo).2 data.title =
          .ok r ∧ r.created_at = r.updated_at)) := by
  refine ⟨?_, ?_⟩
  · rcases hex : (fsGet fs (title_to_filename nfkc data.title)).isSome with _ | _
    · simp only [create, if_neg h, hex]
      constructor
      · intro hc
        rcases wo with _ | ⟨part, cOk⟩
        · simp [safeWrite] at hc
        · simp [safeWrite] at hc
      · intro hc
        cases hc
    · simp only [create, if_neg h, hex]
      exact ⟨fun _ => trivial, fun _ => rfl⟩
  · intro hwo hex
    subst hwo
    have hcr : create K nfkc fs data now newMtime .ok =
        (.ok ⟨data.title, data.content, data.description, data.username, now, now⟩,
         fsSet (fsErase (fsSet fs (tmpName (title_to_filename nfkc data.title))
             ⟨writeTemplateContent K ⟨data.title, data.content, data.description,
               data.username, now, now⟩, newMtime⟩)
           (tmpName (title_to_filename nfkc data.title)))
           (title_to_filename nfkc data.title)
           ⟨writeTemplateContent K ⟨data.title, data.content, data.description,
             data.username, now, now⟩, newMtime⟩) := by
      simp only [create, if_neg h, hex]
      rfl
    refine ⟨hcr, ?_, ?_⟩
    · intro d2 n2 m2 w2 hd2
      have h2 : ¬ d2.title = "" := by
        rw [hd2]
        exact h
      have hkey : title_to_filename nfkc d2.title =
          title_to_filename nfkc data.title := by rw [hd2]
      rw [hcr]
      simp only [create, if_neg h2]
      rw [hkey, fsGet_fsSet_self]
      rfl
    · intro hv1 hv2 hv3 hv4
      rw [hcr]
      have hgot := fsGet_fsSet_self
        (fsErase (fsSet fs (tmpName (title_to_filename nfkc data.title))
           ⟨writeTemplateContent K ⟨data.title, data.content, data.description,
             data.username, now, now⟩, newMtime⟩)
          (tmpName (title_to_filename nfkc data.title)))
        (title_to_filename nfkc data.title)
        ⟨writeTemplateContent K ⟨data.title, data.content, data.description,
          data.username, now, now⟩, newMtime⟩
      simp only [get, if_neg h]
      rw [hgot]
      exact readTemplateContent_write_stamps K
        ⟨data.title, data.content, data.description, data.username, now, now⟩
        (title_to_filename nfkc data.title) newMtime hv1 hv2 hv3 hv4 hv4 rfl

/-- Witness for C6: creating `doc` in an empty directory at clock 3 and
reading it back yields equal timestamps. -/
theorem C6_create_semantics_witness :
    ∃ r, get natKit id (create natKit id ([] : FS Nat)
      ⟨"doc", "body", "d", "alice"⟩ 3 7 .ok).2 "doc" = .ok r ∧
      r.created_at = r.updated_at :=
  ((C6_create_semantics natKit id [] ⟨"doc", "body", "d", "alice"⟩ 3 7 .ok
      (by decide)).2 rfl (by decide)).2.2 (by decide) (by decide) (by decide)
    (by decide)


/-- Counterexample for C4: an explicitly-null `username` is NOT applied.
Lines 296-298 of repository.py reset a `None` username back to the existing
record's username right after the merge, so an update whose `username` field
is explicitly supplied as null is indistinguishable from one that omits the
field, and the stored owner stays `alice`. -/
theorem C4_update_merge_counterexample :
    update natKit id
        [("doc.md", ⟨writeTemplateContent natKit
          ⟨"doc", "hello", "some desc", "alice", 3, 5⟩, 0⟩)]
        "doc" ⟨.unset, .unset, .null⟩ 9 11 .ok =
      update natKit id
        [("doc.md", ⟨writeTemplateContent natKit
          ⟨"doc", "hello", "some desc", "alice", 3, 5⟩, 0⟩)]
        "doc" ⟨.unset, .unset, .unset⟩ 9 11 .ok ∧
    (update natKit id
        [("doc.md", ⟨writeTemplateContent natKit
          ⟨"doc", "hello", "some desc", "alice", 3, 5⟩, 0⟩)]
        "doc" ⟨.unset, .unset, .null⟩ 9 11 .ok).1 =
      .ok ⟨"doc", "hello", "some desc", "alice", 3, 9⟩ := by
  constructor
  · decide
  · decide

/-- C4 (amended): `update` on an existing, readable record merges exactly
the explicitly supplied string fields — an explicit empty string IS applied
— keeps `created_at`, sets `updated_at = now` (hence strictly later than the
prior stamp whenever the clock moved forward), and leaves unsupplied fields
at their old values; but — the correction — an explicitly-null `username`
is reset to the existing username by repository.py lines 296-298, so only
`.val` usernames are ever applied.  Explicitly-null `content` or
`description` would put `None` into a string field of the merged model and
is outside the modelled domain. -/
theorem C4_update_merge_amended {DT : Type} [LinearOrder DT] (K : TimeKit DT)
    (nfkc : String → String) (fs : FS DT) (title : String)
    (u : TemplateUpdate) (now newMtime : DT) (wo : WriteOutcome)
    (f : FSFile DT) (existing : Template DT)
    (h : ¬ title = "") (hwo : wo = .ok)
    (hf : fsGet fs (title_to_filename nfkc title) = some f)
    (hr : readTemplateContent K (title_to_filename nfkc title) f.mtime f.content
      = .ok existing)
    (hcu : ¬ u.content = .null) (hdu : ¬ u.description = .null) :
    ∃ r fs', update K nfkc fs title u now newMtime wo = (.ok r, fs') ∧
      r.title = existing.title ∧
      r.created_at = existing.created_at ∧
      r.updated_at = now ∧
      (∀ s, u.content = .val s → r.content = s) ∧
      (u.content = .unset → r.content = existing.content) ∧
      (∀ s, u.description = .val s → r.description = s) ∧
      (u.description = .unset → r.description = existing.description) ∧
      (∀ s, u.username = .val s → r.username = s) ∧
      ((∀ s, ¬ u.username = .val s) → r.username = existing.username) ∧
      (existing.updated_at < now → existing.updated_at < r.updated_at) := by
  subst hwo
  simp only [update, if_neg h, hf, hr]
  refine ⟨_, _, rfl, rfl, rfl, rfl, ?_, ?_, ?_, ?_, ?_, ?_, ?_⟩
  · intro s hs
    simp only [hs]
  · intro hs
    simp only [hs]
  · intro s hs
    simp only [hs]
  · intro hs
    simp only [hs]
  · intro s hs
    simp only [hs]
  · intro hn
    rcases hu : u.username with _ | _ | s
    · simp only [hu]
    · simp only [hu]
    · exact absurd hu (hn s)
  · intro hlt
    exact hlt

/-- Witness for C4: a content-only update of the stored `doc` applies the
new content, keeps description, owner and `created_at`, and stamps
`updated_at` with the clock reading 9, strictly past the prior stamp 5. -/
theorem C4_update_merge_amended_witness :
    ∃ r fs', update natKit id
        [("doc.md", ⟨writeTemplateContent natKit
          ⟨"doc", "hello", "some desc", "alice", 3, 5⟩, 0⟩)]
        "doc" ⟨.val "new body", .unset, .unset⟩ 9 11 .ok = (.ok r, fs') ∧
      r.title = (⟨"doc", "hello", "some desc", "alice", 3, 5⟩ :
        Template Nat).title ∧
      r.created_at = (⟨"doc", "hello", "some desc", "alice", 3, 5⟩ :
        Template Nat).created_at ∧
      r.updated_at = 9 ∧
      (∀ s, (⟨.val "new body", .unset, .unset⟩ : TemplateUpdate).content =
        .val s → r.content = s) ∧
      ((⟨.val "new body", .unset, .unset⟩ : TemplateUpdate).content = .unset →
        r.content = (⟨"doc", "hello", "some desc", "alice", 3, 5⟩ :
          Template Nat).content) ∧
      (∀ s, (⟨.val "new body", .unset, .unset⟩ : TemplateUpdate).description =
        .val s → r.description = s) ∧
      ((⟨.val "new body", .unset, .unset⟩ : TemplateUpdate).description =
        .unset → r.description = (⟨"doc", "hello", "some desc", "alice", 3, 5⟩ :
          Template Nat).description) ∧
      (∀ s, (⟨.val "new body", .unset, .unset⟩ : TemplateUpdate).username =
        .val s → r.username = s) ∧
      ((∀ s, ¬ (⟨.val "new body", .unset, .unset⟩ :
          TemplateUpdate).username = .val s) →
        r.username = (⟨"doc", "hello", "some desc", "alice", 3, 5⟩ :
          Template Nat).username) ∧
      ((⟨"doc", "hello", "some desc", "alice", 3, 5⟩ :
          Template Nat).updated_at < 9 →
        (⟨"doc", "hello", "some desc", "alice", 3, 5⟩ :
          Template Nat).updated_at < r.updated_at) :=
  C4_update_merge_amended natKit id
    [("doc.md", ⟨writeTemplateContent natKit
      ⟨"doc", "hello", "some desc", "alice", 3, 5⟩, 0⟩)]
    "doc" ⟨.val "new body", .unset, .unset⟩ 9 11 .ok
    ⟨writeTemplateContent natKit ⟨"doc", "hello", "some desc", "alice", 3, 5⟩, 0⟩
    ⟨"doc", "hello", "some desc", "alice", 3, 5⟩
    (by decide) rfl (by decide) (by decide) (by decide) (by decide)


/-- The temporary name differs from the target name. -/
lemma tmpName_ne (name : String) : ¬ tmpName name = name := by
  intro he
  have h2 : name.data ++ [ '.', 't', 'm', 'p'] = name.data :=
    congrArg String.data he
  simp at h2

/-- `find?` looks through an erasure of a different key unchanged. -/
lemma find_fsErase_ne {DT : Type} (fs : FS DT) (n m : String) (h : ¬ n = m) :
    List.find? (fun e => e.1 = m) (fsErase fs n) =
      List.find? (fun e => e.1 = m) fs := by
  induction fs with
  | nil => rfl
  | cons e es ih =>
    unfold fsErase at *
    by_cases he : e.1 = n
    · have hm : ¬ e.1 = m := by
        rw [he]
        exact h
      rw [List.filter_cons_of_neg (by simp [he]),
        List.find?_cons_of_neg _ (by simp [hm])]
      exact ih
    · rw [List.filter_cons_of_pos (by simp [he])]
      by_cases hem : e.1 = m
      · rw [List.find?_cons_of_pos _ (by simp [hem]),
          List.find?_cons_of_pos _ (by simp [hem])]
      · rw [List.find?_cons_of_neg _ (by simp [hem]),
          List.find?_cons_of_neg _ (by simp [hem])]
        exact ih

/-- Reading a different key than the erased one is unaffected. -/
lemma fsGet_fsErase_ne {DT : Type} (fs : FS DT) (n m : String) (h : ¬ n = m) :
    fsGet (fsErase fs n) m = fsGet fs m := by
  unfold fsGet
  rw [find_fsErase_ne fs n m h]

/-- Reading a different key than the written one is unaffected. -/
lemma fsGet_fsSet_ne {DT : Type} (fs : FS DT) (n m : String) (f : FSFile DT)
    (h : ¬ n = m) : fsGet (fsSet fs n f) m = fsGet fs m := by
  unfold fsGet fsSet
  rw [List.find?_cons_of_neg _ (by simp [h]), find_fsErase_ne fs n m h]


/-- C3: `_safe_write` (repository.py lines 192-212).  On success the full
content is written to the sibling `.tmp` path and then atomically replaced
onto the final path, which afterwards holds the complete new content with no
temporary left behind; on a write-phase failure the call surfaces `IOError`,
the best-effort cleanup removes the temporary when it succeeds, and the
target path keeps its prior content; and across every intermediate state of
either execution the target path holds the old complete file or the new
complete file — never the partially-written blob, which only ever lives at
the temporary path. -/
theorem C3_atomic_write_semantics {DT : Type} (fs : FS DT) (name : String)
    (content : String) (newMtime : DT) (o : WriteOutcome) :
    (safeWrite fs name content newMtime .ok =
      (.ok (), fsSet (fsErase (fsSet fs (tmpName name) ⟨content, newMtime⟩)
        (tmpName name)) name ⟨content, newMtime⟩) ∧
     fsGet (safeWrite fs name content newMtime .ok).2 name =
        some ⟨content, newMtime⟩ ∧
     fsGet (safeWrite fs name content newMtime .ok).2 (tmpName name) = none) ∧
    (∀ part cOk,
      (safeWrite fs name content newMtime (.failed part cOk)).1 =
        .error .ioErr ∧
      (cOk = true →
        fsGet (safeWrite fs name content newMtime (.failed part cOk)).2
          (tmpName name) = none) ∧
      fsGet (safeWrite fs name content newMtime (.failed part cOk)).2 name =
        fsGet fs name) ∧
    (∀ st ∈ safeWriteStates fs name content newMtime o,
      fsGet st name = fsGet fs name ∨
        fsGet st name = some ⟨content, newMtime⟩) := by
  have hne : ¬ tmpName name = name := tmpName_ne name
  have hne2 : ¬ name = tmpName name := fun he => hne he.symm
  refine ⟨⟨rfl, ?_, ?_⟩, ?_, ?_⟩
  · exact fsGet_fsSet_self _ _ _
  · show fsGet (fsSet (fsErase (fsSet fs (tmpName name) ⟨content, newMtime⟩)
        (tmpName name)) name ⟨content, newMtime⟩) (tmpName name) = none
    rw [fsGet_fsSet_ne _ _ _ _ hne2]
    exact fsGet_fsErase_self _ _
  · intro part cOk
    refine ⟨rfl, ?_, ?_⟩
    · intro hc
      subst hc
      show fsGet (fsErase (fsSet fs (tmpName name) ⟨part, newMtime⟩)
        (tmpName name)) (tmpName name) = none
      exact fsGet_fsErase_self _ _
    · rcases cOk with _ | _
      · show fsGet (fsSet fs (tmpName name) ⟨part, newMtime⟩) name = fsGet fs name
        exact fsGet_fsSet_ne _ _ _ _ hne
      · show fsGet (fsErase (fsSet fs (tmpName name) ⟨part, newMtime⟩)
          (tmpName name)) name = fsGet fs name
        rw [fsGet_fsErase_ne _ _ _ hne]
        exact fsGet_fsSet_ne _ _ _ _ hne
  · intro st hst
    rcases o with _ | ⟨part, cOk⟩
    · simp only [safeWriteStates, List.mem_cons, List.mem_singleton,
        List.not_mem_nil, or_false] at hst
      rcases hst with h0 | h1 | h2
      · subst h0
        left
        rfl
      · subst h1
        left
        exact fsGet_fsSet_ne _ _ _ _ hne
      · subst h2
        right
        exact fsGet_fsSet_self _ _ _
    · simp only [safeWriteStates, List.mem_cons, List.mem_singleton,
        List.not_mem_nil, or_false] at hst
      rcases hst with h0 | h1 | h2
      · subst h0
        left
        rfl
      · subst h1
        left
        exact fsGet_fsSet_ne _ _ _ _ hne
      · subst h2
        left
        rcases cOk with _ | _
        · show fsGet (fsSet fs (tmpName name) ⟨part, newMtime⟩) name =
            fsGet fs name
          exact fsGet_fsSet_ne _ _ _ _ hne
        · show fsGet (fsErase (fsSet fs (tmpName name) ⟨part, newMtime⟩)
            (tmpName name)) name = fsGet fs name
          rw [fsGet_fsErase_ne _ _ _ hne]
          exact fsGet_fsSet_ne _ _ _ _ hne

/-- Witness for C3: in the middle state of a successful write of `new` over
`old`, the target `a.md` still reads the old complete content. -/
theorem C3_atomic_write_semantics_witness :
    fsGet (fsSet [("a.md", (⟨"old", 0⟩ : FSFile Nat))] (tmpName "a.md")
        ⟨"new", 1⟩) "a.md" =
      fsGet [("a.md", (⟨"old", 0⟩ : FSFile Nat))] "a.md" ∨
    fsGet (fsSet [("a.md", (⟨"old", 0⟩ : FSFile Nat))] (tmpName "a.md")
        ⟨"new", 1⟩) "a.md" = some ⟨"new", 1⟩ :=
  (C3_atomic_write_semantics [("a.md", ⟨"old", 0⟩)] "a.md" "new" 1 .ok).2.2
    (fsSet [("a.md", ⟨"old", 0⟩)] (tmpName "a.md") ⟨"new", 1⟩) (by decide)


/-- Membership through the stable descending insertion. -/
lemma mem_insertByUpdatedDesc {DT : Type} [LinearOrder DT]
    (x y : Template DT) (l : List (Template DT)) :
    y ∈ insertByUpdatedDesc x l ↔ y = x ∨ y ∈ l := by
  induction l with
  | nil => simp [insertByUpdatedDesc]
  | cons z zs ih =>
    by_cases hz : z.updated_at ≤ x.updated_at
    · simp [insertByUpdatedDesc, hz]
    · simp only [insertByUpdatedDesc, hz, if_false, List.mem_cons, ih]
      tauto

/-- Membership through the descending sort. -/
lemma mem_sortByUpdatedDesc {DT : Type} [LinearOrder DT]
    (y : Template DT) (l : List (Template DT)) :
    y ∈ sortByUpdatedDesc l ↔ y ∈ l := by
  induction l with
  | nil => simp [sortByUpdatedDesc]
  | cons z zs ih =>
    simp [sortByUpdatedDesc, mem_insertByUpdatedDesc, ih]

/-- The insertion step preserves descending `updated_at` order. -/
lemma pairwise_insertByUpdatedDesc {DT : Type} [LinearOrder DT]
    (x : Template DT) (l : List (Template DT))
    (hl : l.Pairwise (fun a b => b.updated_at ≤ a.updated_at)) :
    (insertByUpdatedDesc x l).Pairwise
      (fun a b => b.updated_at ≤ a.updated_at) := by
  induction l with
  | nil => simp [insertByUpdatedDesc]
  | cons z zs ih =>
    rw [List.pairwise_cons] at hl
    by_cases hz : z.updated_at ≤ x.updated_at
    · rw [show insertByUpdatedDesc x (z :: zs) = x :: z :: zs by
        simp [insertByUpdatedDesc, hz]]
      rw [List.pairwise_cons]
      refine ⟨?_, List.pairwise_cons.mpr hl⟩
      intro b hb
      rcases List.mem_cons.mp hb with hb | hb
      · rw [hb]
        exact hz
      · exact le_trans (hl.1 b hb) hz
    · rw [show insertByUpdatedDesc x (z :: zs) = z :: insertByUpdatedDesc x zs by
        simp [insertByUpdatedDesc, hz]]
      rw [List.pairwise_cons]
      refine ⟨?_, ih hl.2⟩
      intro b hb
      rcases (mem_insertByUpdatedDesc x b zs).mp hb with hb | hb
      · rw [hb]
        exact le_of_not_le hz
      · exact hl.1 b hb

/-- The sort produces a descending `updated_at` sequence. -/
lemma pairwise_sortByUpdatedDesc {DT : Type} [LinearOrder DT]
    (l : List (Template DT)) :
    (sortByUpdatedDesc l).Pairwise (fun a b => b.updated_at ≤ a.updated_at) := by
  induction l with
  | nil => simp [sortByUpdatedDesc]
  | cons z zs ih => exact pairwise_insertByUpdatedDesc z _ ih


/-- Counterexample for C5: an ownerFilter explicitly provided as the empty
string is skipped, not applied.  Line 352 of repository.py guards the filter
with `if username:`, which is false for `""`, so the listing keeps a record
owned by `bob` even though `"bob" ≠ ""`. -/
theorem C5_list_counterexample :
    listOp natKit [("doc.md", ⟨writeTemplateContent natKit
        ⟨"doc", "c", "d", "bob", 3, 5⟩, 0⟩)] 10 0 (some "") =
      [⟨"doc", "c", "d", "bob", 3, 5⟩] ∧
    ¬ ("bob" : String) = "" := by
  constructor
  · decide
  · decide

/-- C5 (amended): `list` (repository.py lines 326-373).  An entry that does
not carry the `.md` suffix, or whose read/parse raises, is dropped without
aborting the listing; when the ownerFilter is provided and NON-EMPTY every
returned record's owner equals it exactly (the correction: an empty-string
filter is skipped by the `if username:` truthiness test on line 352); the
returned page is descending in `updated_at`; and the `(limit, offset)` page
is the `[offset, offset + limit)` slice of the full sorted, filtered
sequence. -/
theorem C5_list_amended {DT : Type} [LinearOrder DT] (K : TimeKit DT)
    (limit offset : Nat) :
    (∀ (pre post : FS DT) (name : String) (f : FSFile DT)
        (uf : Option String),
      (¬ ([ '.', 'm', 'd'].isSuffixOf name.data) = true ∨
        ∃ e, readTemplateContent K name f.mtime f.content = .error e) →
      listOp K (pre ++ (name, f) :: post) limit offset uf =
        listOp K (pre ++ post) limit offset uf) ∧
    (∀ (fs : FS DT) (u : String) (t : Template DT), ¬ u = "" →
      t ∈ listOp K fs limit offset (some u) → t.username = u) ∧
    (∀ (fs : FS DT) (uf : Option String),
      (listOp K fs limit offset uf).Pairwise
        (fun a b => b.updated_at ≤ a.updated_at)) ∧
    (∀ (fs : FS DT) (uf : Option String),
      listOp K fs limit offset uf =
        (listOp K fs (offset + limit) 0 uf).drop offset) := by
  refine ⟨?_, ?_, ?_, ?_⟩
  · intro pre post name f uf hbad
    rcases hbad with hs | ⟨e, he⟩
    · simp only [listOp, List.filter_append]
      rw [List.filter_cons_of_neg (by simpa using hs)]
    · simp only [listOp, List.filter_append]
      by_cases hs : ([ '.', 'm', 'd'].isSuffixOf name.data) = true
      · rw [List.filter_cons_of_pos (by simpa using hs),
          List.filterMap_append, List.filterMap_append, List.filterMap_cons]
        simp only [he]
      · rw [List.filter_cons_of_neg (by simpa using hs)]
  · intro fs u t hu ht
    simp only [listOp] at ht
    rw [if_neg hu] at ht
    have h1 := List.mem_of_mem_drop (List.mem_of_mem_take ht)
    have h2 := (mem_sortByUpdatedDesc t _).mp h1
    have h3 := List.mem_filter.mp h2
    simpa using h3.2
  · intro fs uf
    simp only [listOp]
    exact List.Pairwise.sublist
      ((List.take_sublist _ _).trans (List.drop_sublist _ _))
      (pairwise_sortByUpdatedDesc _)
  · intro fs uf
    simp only [listOp, List.drop_zero]
    rw [List.drop_take]
    congr 1
    omega

/-- Witness for C5: with two stored records, the `alice` filter returns the
`alice` record, whose owner is exactly `alice`. -/
theorem C5_list_amended_witness :
    (⟨"a", "c", "d", "alice", 3, 5⟩ : Template Nat) ∈
      listOp natKit
        [("a.md", ⟨writeTemplateContent natKit ⟨"a", "c", "d", "alice", 3, 5⟩, 0⟩),
         ("b.md", ⟨writeTemplateContent natKit ⟨"b", "c", "d", "bob", 4, 6⟩, 0⟩)]
        10 0 (some "alice") ∧
    (⟨"a", "c", "d", "alice", 3, 5⟩ : Template Nat).username = "alice" :=
  ⟨by decide,
   (C5_list_amended natKit 10 0).2.1
     [("a.md", ⟨writeTemplateContent natKit ⟨"a", "c", "d", "alice", 3, 5⟩, 0⟩),
      ("b.md", ⟨writeTemplateContent natKit ⟨"b", "c", "d", "bob", 4, 6⟩, 0⟩)]
     "alice" ⟨"a", "c", "d", "alice", 3, 5⟩ (by decide) (by decide)⟩

end AIPB
